import Mathlib

/-!
Shallow embedding of `src/game.js` (tower-defense simulation core).

Modelling conventions:
* JavaScript numbers are modelled as exact rationals (`ℚ`); every quantity the
  claims mention (money, score, health, damage, timers, cooldowns, positions)
  is produced by exact arithmetic in the source as well.
* `Math.sqrt s` occurs in the source only (a) compared against a non-negative
  threshold (`dist < 1`, `dist < 5`, `dist <= range`, `dist < minDist`), which
  is embedded as the equivalent comparison of squares (exact over the reals,
  because squaring is strictly monotone on non-negatives and every range and
  distance in a constructed game is non-negative), and (b) inside the
  normalised movement displacement `(dx / dist) * k`, where it is modelled by
  `Rat.sqrt`; no theorem below depends on the exact value of a moved position.
* JavaScript object references: a `Projectile` holds a reference to its target
  `Enemy` object, and an enemy spliced out of `game.enemies` still exists as
  an object that can be read and mutated through that reference.  The heap is
  modelled by giving every enemy a numeric `id`; removed enemies are moved to
  a `ghosts` list, and a projectile dereferences its target id in the live
  list first and then among the ghosts.  With pairwise distinct ids this is
  exactly the JavaScript reference semantics.
* The backward index loops (`for (let i = length - 1; i >= 0; i--)` with
  `splice`) visit each original element exactly once, highest index first; the
  recursions below process the tail of the list before the head, which is the
  same processing order, and keep survivors in their original order.
* Rendering (`draw`, `drawUI`), mouse-move tracking and the
  `requestAnimationFrame` driver are I/O wrappers around the simulation and
  are not modelled.  `alert(...)` calls are modelled as an explicit `UiEffect`
  value returned next to the new state (the source has exactly two alert call
  sites).
* The source constructor calls `this.createGrid()` (which reads `this.path`)
  one line before `this.path` is assigned; the grid here is built from the
  path, as the code plainly intends.
-/

def CANVAS_WIDTH : ℚ := 800

def CANVAS_HEIGHT : ℚ := 600

def GRID_SIZE : ℚ := 40

/-- `Math.floor(CANVAS_WIDTH / GRID_SIZE)` = 20. -/
def GRID_WIDTH : ℕ := 20

/-- `Math.floor(CANVAS_HEIGHT / GRID_SIZE)` = 15. -/
def GRID_HEIGHT : ℕ := 15

structure Point where
  x : ℚ
  y : ℚ
deriving DecidableEq

structure TowerStats where
  cost : ℚ
  damage : ℚ
  range : ℚ
  fireRate : ℚ
  color : String
  name : String
deriving DecidableEq

/-- The `this.towerTypes` table from the `Game` constructor. -/
def towerTypes (t : String) : Option TowerStats :=
  if t = "basic" then
    some { cost := 50, damage := 10, range := 100, fireRate := 1, color := "blue",
           name := "Basic Tower" }
  else if t = "sniper" then
    some { cost := 100, damage := 30, range := 200, fireRate := 0.5, color := "green",
           name := "Sniper Tower" }
  else if t = "rapid" then
    some { cost := 75, damage := 5, range := 80, fireRate := 3, color := "orange",
           name := "Rapid Tower" }
  else if t = "splash" then
    some { cost := 120, damage := 15, range := 90, fireRate := 1.2, color := "purple",
           name := "Splash Tower" }
  else none

structure EnemyStats where
  health : ℚ
  speed : ℚ
  reward : ℚ
  color : String
  size : ℚ
deriving DecidableEq

/-- The `this.enemyTypes` table from the `Game` constructor. -/
def enemyTypes (t : String) : Option EnemyStats :=
  if t = "basic" then
    some { health := 50, speed := 1, reward := 10, color := "red", size := 20 }
  else if t = "fast" then
    some { health := 30, speed := 2, reward := 15, color := "yellow", size := 15 }
  else if t = "tank" then
    some { health := 150, speed := 0.5, reward := 30, color := "brown", size := 25 }
  else if t = "boss" then
    some { health := 300, speed := 0.3, reward := 100, color := "darkred", size := 30 }
  else none

structure Tower where
  x : ℚ
  y : ℚ
  type : String
  damage : ℚ
  range : ℚ
  fireRate : ℚ
  color : String
  level : ℕ
  fireCooldown : ℚ
  upgradeCost : ℚ
deriving DecidableEq

/-- The `Tower` constructor. -/
def mkTower (x y : ℚ) (ty : String) (stats : TowerStats) : Tower :=
  { x := x, y := y, type := ty, damage := stats.damage, range := stats.range,
    fireRate := stats.fireRate, color := stats.color, level := 1, fireCooldown := 0,
    upgradeCost := 50 }

structure Enemy where
  id : ℕ
  type : String
  health : ℚ
  maxHealth : ℚ
  speed : ℚ
  reward : ℚ
  color : String
  size : ℚ
  pathIndex : ℕ
  x : ℚ
  y : ℚ
deriving DecidableEq

/-- The `Enemy` constructor (`this.x = path[0].x; this.y = path[0].y`; the path
built by `createPath` is never empty). -/
def mkEnemy (id : ℕ) (ty : String) (stats : EnemyStats) (path : List Point) : Enemy :=
  { id := id, type := ty, health := stats.health, maxHealth := stats.health,
    speed := stats.speed, reward := stats.reward, color := stats.color, size := stats.size,
    pathIndex := 0, x := (path.headD ⟨0, 0⟩).x, y := (path.headD ⟨0, 0⟩).y }

/-- `Enemy.update(deltaTime)`.  The guard `pathIndex >= path.length - 1` is
JavaScript arithmetic (so it also holds for an empty path, where `length - 1`
is `-1`), which is exactly `pathIndex + 1 ≥ path.length` on naturals.  The
waypoint test `Math.sqrt(dx*dx + dy*dy) < 1` is embedded as
`dx*dx + dy*dy < 1`. -/
def Enemy.update (e : Enemy) (dt : ℚ) (path : List Point) : Enemy :=
  if e.pathIndex + 1 ≥ path.length then
    { e with x := e.x + e.speed * GRID_SIZE * dt }
  else
    let target := (path[e.pathIndex + 1]?).getD ⟨0, 0⟩
    let dx := target.x - e.x
    let dy := target.y - e.y
    if dx * dx + dy * dy < 1 then
      { e with pathIndex := e.pathIndex + 1 }
    else
      let dist := Rat.sqrt (dx * dx + dy * dy)
      { e with x := e.x + dx / dist * (e.speed * GRID_SIZE * dt),
               y := e.y + dy / dist * (e.speed * GRID_SIZE * dt) }

structure Projectile where
  x : ℚ
  y : ℚ
  target : ℕ
  damage : ℚ
  color : String
  speed : ℚ
  markedForDeletion : Bool
deriving DecidableEq

/-- The `Projectile` constructor (`this.speed = 300`). -/
def mkProjectile (x y : ℚ) (target : ℕ) (damage : ℚ) (color : String) : Projectile :=
  { x := x, y := y, target := target, damage := damage, color := color, speed := 300,
    markedForDeletion := false }

/-- Dereference an enemy id (the first enemy with that id). -/
def findEnemy (id : ℕ) : List Enemy → Option Enemy
  | [] => none
  | e :: rest => if e.id = id then some e else findEnemy id rest

/-- Mutate (the first occurrence of) the enemy with the given id. -/
def mapEnemy (id : ℕ) (f : Enemy → Enemy) : List Enemy → List Enemy
  | [] => []
  | e :: rest => if e.id = id then f e :: rest else e :: mapEnemy id f rest

/-- Apply `target.health -= damage` through the reference: the object lives
either in the live collection or among the removed (ghost) objects. -/
def damageEnemy (id : ℕ) (dmg : ℚ) (live ghosts : List Enemy) : List Enemy × List Enemy :=
  if (findEnemy id live).isSome then
    (mapEnemy id (fun e => { e with health := e.health - dmg }) live, ghosts)
  else
    (live, mapEnemy id (fun e => { e with health := e.health - dmg }) ghosts)

/-- `Projectile.update(deltaTime)`.  `!this.target` is impossible in the
source (the constructor is always handed an enemy object); the `none` branch
corresponds to a dangling id and cannot occur when ids are well formed.  The
hit test `Math.sqrt(dx*dx + dy*dy) < 5` is embedded as `dx*dx + dy*dy < 25`. -/
def Projectile.update (p : Projectile) (dt : ℚ) (live ghosts : List Enemy) :
    Projectile × List Enemy × List Enemy :=
  match findEnemy p.target (live ++ ghosts) with
  | none => ({ p with markedForDeletion := true }, live, ghosts)
  | some tgt =>
    if tgt.health ≤ 0 then
      ({ p with markedForDeletion := true }, live, ghosts)
    else
      let dx := tgt.x - p.x
      let dy := tgt.y - p.y
      if dx * dx + dy * dy < 25 then
        let lg := damageEnemy p.target p.damage live ghosts
        ({ p with markedForDeletion := true }, lg.1, lg.2)
      else
        let dist := Rat.sqrt (dx * dx + dy * dy)
        ({ p with x := p.x + dx / dist * p.speed * dt,
                  y := p.y + dy / dist * p.speed * dt }, live, ghosts)

/-- Squared distance from a tower to an enemy. -/
def Tower.distSqTo (t : Tower) (e : Enemy) : ℚ :=
  (e.x - t.x) * (e.x - t.x) + (e.y - t.y) * (e.y - t.y)

/-- The target-scan loop of `Tower.update`: running accumulator holds the
current `(target, minDist)` pair (`none` plays the role of
`minDist = Infinity`).  `dist <= range` and `dist < minDist` are embedded as
the comparisons of the squares. -/
def Tower.findTargetAux (t : Tower) : List Enemy → Option (Enemy × ℚ) → Option (Enemy × ℚ)
  | [], acc => acc
  | e :: rest, acc =>
    let d := t.distSqTo e
    let acc' :=
      match acc with
      | none => if d ≤ t.range * t.range then some (e, d) else none
      | some a => if d ≤ t.range * t.range ∧ d < a.2 then some (e, d) else acc
    Tower.findTargetAux t rest acc'

/-- `Tower.update(deltaTime, enemies, projectiles)`: returns the updated tower
and the projectile pushed onto `projectiles`, if any. -/
def Tower.update (t : Tower) (dt : ℚ) (enemies : List Enemy) : Tower × Option Projectile :=
  let t1 := { t with fireCooldown := t.fireCooldown - dt }
  if t1.fireCooldown ≤ 0 then
    match Tower.findTargetAux t1 enemies none with
    | some a =>
      ({ t1 with fireCooldown := 1 / t1.fireRate },
       some (mkProjectile t1.x t1.y a.1.id t1.damage t1.color))
    | none => (t1, none)
  else (t1, none)

/-- `Tower.upgrade()`. -/
def Tower.upgrade (t : Tower) : Tower :=
  { t with level := t.level + 1,
           damage := ((⌊t.damage * 1.5⌋ : ℤ) : ℚ),
           range := t.range + 10,
           fireRate := t.fireRate * 1.1,
           upgradeCost := t.upgradeCost + 25 }

structure Wave where
  enemies : List String
deriving DecidableEq

/-- The wave table built by `WaveManager.createWaves`. -/
def createWaves : List Wave :=
  [ ⟨["basic", "basic", "basic", "basic", "basic"]⟩,
    ⟨["basic", "fast", "basic", "fast"]⟩,
    ⟨["basic", "basic", "tank", "basic"]⟩,
    ⟨["fast", "fast", "fast", "tank"]⟩,
    ⟨["tank", "tank", "basic", "basic", "fast", "fast"]⟩,
    ⟨["boss", "basic", "basic", "tank"]⟩ ]

structure WaveMgr where
  waves : List Wave
  currentWaveIndex : ℕ
  waveCooldown : ℚ
  waveInterval : ℚ
  totalWaves : ℕ
  spawnTimer : Option ℚ
deriving DecidableEq

/-- `WaveManager.update(deltaTime)`.  It reads and writes `game.enemies`
(spawning) and reads `game.path` and the game's enemy-type table; those parts
of the game state are threaded explicitly.  `spawnTimer` is a lazily created
field in the source (`undefined` until first used, set back to `undefined`
between waves); it is modelled as an `Option`, with `undefined` treated as `0`
at the `+= dt` site, exactly as the source's explicit
`if (this.spawnTimer === undefined) this.spawnTimer = 0` does. -/
def WaveMgr.update (m : WaveMgr) (dt : ℚ) (enemies : List Enemy) (path : List Point)
    (nextId : ℕ) : WaveMgr × List Enemy × ℕ :=
  if m.currentWaveIndex ≥ m.waves.length then
    (m, enemies, nextId)
  else if m.waveCooldown > 0 then
    ({ m with waveCooldown := m.waveCooldown - dt }, enemies, nextId)
  else
    let wave := (m.waves[m.currentWaveIndex]?).getD ⟨[]⟩
    match wave.enemies with
    | ty :: rest =>
      let timer := m.spawnTimer.getD 0 + dt
      if timer ≥ 1 then
        let m1 := { m with waves := m.waves.set m.currentWaveIndex ⟨rest⟩, spawnTimer := some 0 }
        match enemyTypes ty with
        | some stats => (m1, enemies ++ [mkEnemy nextId ty stats path], nextId + 1)
        | none => (m1, enemies, nextId)
      else
        ({ m with spawnTimer := some timer }, enemies, nextId)
    | [] =>
      if enemies.length = 0 then
        ({ m with currentWaveIndex := m.currentWaveIndex + 1, waveCooldown := m.waveInterval,
                  spawnTimer := none }, enemies, nextId)
      else
        (m, enemies, nextId)

structure Cell where
  walkable : Bool
  tower : Option ℕ
deriving DecidableEq

/-- In-place update of one list element (identity when out of range). -/
def listModify {α : Type} (f : α → α) : List α → ℕ → List α
  | [], _ => []
  | a :: rest, 0 => f a :: rest
  | a :: rest, n + 1 => a :: listModify f rest n

/-- `this.grid[gridY][gridX]` as a partial read (JavaScript yields `undefined`
out of range, which the call sites guard with `&&`). -/
def cellAt (grid : List (List Cell)) (gy gx : ℤ) : Option Cell :=
  if 0 ≤ gy ∧ 0 ≤ gx then
    match grid.get? gy.toNat with
    | some row => row.get? gx.toNat
    | none => none
  else none

/-- Mutate `this.grid[gridY][gridX]` (no effect out of range). -/
def modifyCell (grid : List (List Cell)) (gy gx : ℤ) (f : Cell → Cell) : List (List Cell) :=
  if 0 ≤ gy ∧ 0 ≤ gx then
    listModify (fun row => listModify f row gx.toNat) grid gy.toNat
  else grid

/-- `Game.createPath()`, with the JavaScript loops unrolled.  With
`GRID_WIDTH = 20` and `GRID_HEIGHT = 15`:
`startY = Math.floor(15 / 2) * 40 = 280`; the start point is `(0, 280)`;
the first loop (`i = 1` while `i <= 20/3 = 6.66...`) pushes
`(i * 40, 280)` for `i = 1 .. 6`; the second loop (`i = 1` while
`i <= 15/3 = 5`) pushes `((20/3) * 40, 280 + i * 40) = (800/3, 320 .. 480)`;
the third loop starts at the fractional `i = 20/3 + 1 = 23/3` and steps by 1
while `i <= 20`, pushing `(i * 40, 280 + 5 * 40) = (920/3 + 40k, 480)` for
`k = 0 .. 12`. -/
def createPath : List Point :=
  [⟨0, 280⟩,
   ⟨40, 280⟩, ⟨80, 280⟩, ⟨120, 280⟩, ⟨160, 280⟩, ⟨200, 280⟩, ⟨240, 280⟩,
   ⟨800/3, 320⟩, ⟨800/3, 360⟩, ⟨800/3, 400⟩, ⟨800/3, 440⟩, ⟨800/3, 480⟩,
   ⟨920/3, 480⟩, ⟨1040/3, 480⟩, ⟨1160/3, 480⟩, ⟨1280/3, 480⟩, ⟨1400/3, 480⟩,
   ⟨1520/3, 480⟩, ⟨1640/3, 480⟩, ⟨1760/3, 480⟩, ⟨1880/3, 480⟩, ⟨2000/3, 480⟩,
   ⟨2120/3, 480⟩, ⟨2240/3, 480⟩, ⟨2360/3, 480⟩]

/-- `Game.createGrid()`: a `GRID_HEIGHT × GRID_WIDTH` grid of walkable,
tower-free cells, then every path point marks its cell non-walkable
(bounds-checked). -/
def createGrid (path : List Point) : List (List Cell) :=
  let base := List.replicate GRID_HEIGHT
    (List.replicate GRID_WIDTH ({ walkable := true, tower := none } : Cell))
  path.foldl (fun grid point =>
    let gridX : ℤ := ⌊point.x / GRID_SIZE⌋
    let gridY : ℤ := ⌊point.y / GRID_SIZE⌋
    if 0 ≤ gridY ∧ gridY < (GRID_HEIGHT : ℤ) ∧ 0 ≤ gridX ∧ gridX < (GRID_WIDTH : ℤ) then
      modifyCell grid gridY gridX (fun c => { c with walkable := false })
    else grid) base

structure Game where
  towers : List Tower
  enemies : List Enemy
  ghosts : List Enemy
  projectiles : List Projectile
  waveMgr : WaveMgr
  money : ℚ
  score : ℚ
  lives : ℤ
  gameOver : Bool
  gameWon : Bool
  selectedTowerType : String
  placingTower : Bool
  grid : List (List Cell)
  path : List Point
  nextEnemyId : ℕ
deriving DecidableEq

/-- The `Game` constructor state (`new Game(canvas)`), rendering and DOM
fields omitted. -/
def initialGame : Game :=
  { towers := [], enemies := [], ghosts := [], projectiles := [],
    waveMgr := { waves := createWaves, currentWaveIndex := 0, waveCooldown := 0,
                 waveInterval := 5, totalWaves := createWaves.length, spawnTimer := none },
    money := 150, score := 0, lives := 20, gameOver := false, gameWon := false,
    selectedTowerType := "basic", placingTower := false,
    grid := createGrid createPath, path := createPath, nextEnemyId := 0 }

/-- Session fields threaded through the enemy loop of `Game.update`. -/
structure EnemyPassAcc where
  ghosts : List Enemy
  money : ℚ
  score : ℚ
  lives : ℤ
  gameOver : Bool
deriving DecidableEq

/-- The enemy loop of `Game.update` (`for (let i = enemies.length - 1; ...)`):
each enemy is advanced, then a dead enemy (`health <= 0`) pays its reward to
money and score and is removed, and otherwise an escaped enemy
(`x > CANVAS_WIDTH`) costs a life (setting `gameOver` the moment `lives <= 0`)
and is removed.  The tail of the list (higher indices) is processed first,
as in the source. -/
def enemiesPass (dt : ℚ) (path : List Point) :
    List Enemy → EnemyPassAcc → List Enemy × EnemyPassAcc
  | [], s => ([], s)
  | e :: rest, s =>
    let r := enemiesPass dt path rest s
    let e1 := e.update dt path
    if e1.health ≤ 0 then
      (r.1, { r.2 with money := r.2.money + e1.reward, score := r.2.score + e1.reward,
                       ghosts := e1 :: r.2.ghosts })
    else if e1.x > CANVAS_WIDTH then
      let lives1 := r.2.lives - 1
      (r.1, { r.2 with lives := lives1, ghosts := e1 :: r.2.ghosts,
                       gameOver := if lives1 ≤ 0 then true else r.2.gameOver })
    else
      (e1 :: r.1, r.2)

/-- The tower loop of `Game.update` (`this.towers.forEach(...)`); projectiles
are pushed in tower order. -/
def towersPass (dt : ℚ) (enemies : List Enemy) : List Tower → List Tower × List Projectile
  | [] => ([], [])
  | t :: rest =>
    let u := t.update dt enemies
    let r := towersPass dt enemies rest
    (u.1 :: r.1, match u.2 with | some p => p :: r.2 | none => r.2)

/-- The projectile loop of `Game.update`: each projectile is advanced (which
may damage its target through the reference) and removed when marked; the
tail (higher indices) is processed first, as in the source. -/
def projectilesPass (dt : ℚ) :
    List Projectile → List Enemy → List Enemy → List Projectile × List Enemy × List Enemy
  | [], live, ghosts => ([], live, ghosts)
  | p :: rest, live, ghosts =>
    let r := projectilesPass dt rest live ghosts
    let u := p.update dt r.2.1 r.2.2
    ((if u.1.markedForDeletion then r.1 else u.1 :: r.1), u.2.1, u.2.2)

/-- Phase 1 of `Game.update`: `this.waveManager.update(deltaTime)`. -/
def Game.wavePhase (g : Game) (dt : ℚ) : Game :=
  let r := g.waveMgr.update dt g.enemies g.path g.nextEnemyId
  { g with waveMgr := r.1, enemies := r.2.1, nextEnemyId := r.2.2 }

/-- Phase 2 of `Game.update`: the enemy loop. -/
def Game.enemyPhase (g : Game) (dt : ℚ) : Game :=
  let r := enemiesPass dt g.path g.enemies
    { ghosts := g.ghosts, money := g.money, score := g.score, lives := g.lives,
      gameOver := g.gameOver }
  { g with enemies := r.1, ghosts := r.2.ghosts, money := r.2.money, score := r.2.score,
           lives := r.2.lives, gameOver := r.2.gameOver }

/-- Phase 3 of `Game.update`: the tower loop. -/
def Game.towerPhase (g : Game) (dt : ℚ) : Game :=
  let r := towersPass dt g.enemies g.towers
  { g with towers := r.1, projectiles := g.projectiles ++ r.2 }

/-- Phase 4 of `Game.update`: the projectile loop. -/
def Game.projectilePhase (g : Game) (dt : ℚ) : Game :=
  let r := projectilesPass dt g.projectiles g.enemies g.ghosts
  { g with projectiles := r.1, enemies := r.2.1, ghosts := r.2.2 }

/-- Phase 5 of `Game.update`: the win condition, exactly as written in the
source: `if (this.waveManager.waves.length === 0 && this.enemies.length === 0)
this.gameWon = true`. -/
def Game.winCheck (g : Game) : Game :=
  if g.waveMgr.waves.length == 0 && g.enemies.length == 0 then { g with gameWon := true }
  else g

/-- `Game.update(deltaTime)`: a no-op once `gameOver` or `gameWon` holds,
otherwise the five phases in source order. -/
def Game.update (g : Game) (dt : ℚ) : Game :=
  if g.gameOver || g.gameWon then g
  else ((((g.wavePhase dt).enemyPhase dt).towerPhase dt).projectilePhase dt).winCheck

/-- The observable effect of the two `alert(...)` call sites. -/
inductive UiEffect where
  | alertNotEnoughMoney
  | alertNeedUpgrade (cost : ℚ)
deriving DecidableEq

/-- `Game.upgradeTower(tower)`, tower identified by its index in
`this.towers`.  Note the charged cost is `tower.level * 25 + 50`, computed
from the pre-upgrade level. -/
def Game.upgradeTower (g : Game) (i : ℕ) : Game × Option UiEffect :=
  match g.towers.get? i with
  | none => (g, none)
  | some t =>
    let upgradeCost := (t.level : ℚ) * 25 + 50
    if g.money ≥ upgradeCost then
      ({ g with money := g.money - upgradeCost, towers := g.towers.set i t.upgrade }, none)
    else
      (g, some (UiEffect.alertNeedUpgrade upgradeCost))

/-- The upgrade-click scan of `Game.handleClick`: the first tower whose range
circle contains the click (`Math.sqrt(...) <= tower.range`, embedded as
squares). -/
def findClickedTower (x y : ℚ) : List Tower → ℕ → Option ℕ
  | [], _ => none
  | t :: rest, i =>
    if (x - t.x) * (x - t.x) + (y - t.y) * (y - t.y) ≤ t.range * t.range then some i
    else findClickedTower x y rest (i + 1)

/-- `Game.handleClick(e)`, with the canvas-relative click coordinates passed
directly.  The `none` result of the inner `towerTypes` lookup is unreachable:
`selectedTowerType` always names a defined archetype. -/
def Game.handleClick (g : Game) (x y : ℚ) : Game × Option UiEffect :=
  if g.gameOver then (g, none)
  else
    let gridX : ℤ := ⌊x / GRID_SIZE⌋
    let gridY : ℤ := ⌊y / GRID_SIZE⌋
    if g.placingTower then
      match cellAt g.grid gridY gridX with
      | some c =>
        if c.walkable then
          match towerTypes g.selectedTowerType with
          | some tt =>
            if g.money ≥ tt.cost then
              let tower := mkTower ((gridX : ℚ) * GRID_SIZE + GRID_SIZE / 2)
                ((gridY : ℚ) * GRID_SIZE + GRID_SIZE / 2) g.selectedTowerType tt
              ({ g with money := g.money - tt.cost,
                        towers := g.towers ++ [tower],
                        grid := modifyCell g.grid gridY gridX
                          (fun cell => { cell with tower := some g.towers.length,
                                                   walkable := false }),
                        placingTower := false }, none)
            else (g, some UiEffect.alertNotEnoughMoney)
          | none => (g, none)
        else (g, none)
      | none => (g, none)
    else
      match findClickedTower x y g.towers 0 with
      | some i => g.upgradeTower i
      | none => (g, none)

/-- `Game.startPlacingTower(type)`. -/
def Game.startPlacingTower (g : Game) (ty : String) : Game :=
  match towerTypes ty with
  | some _ => { g with selectedTowerType := ty, placingTower := true }
  | none => g

/-- The commands the host can feed into the simulation: a frame tick, a canvas
click, and a tower-type selection. -/
inductive Step where
  | tick (dt : ℚ)
  | click (x y : ℚ)
  | selectTower (ty : String)
deriving DecidableEq

def Step.apply (g : Game) : Step → Game
  | .tick dt => g.update dt
  | .click x y => (g.handleClick x y).1
  | .selectTower ty => g.startPlacingTower ty

/-- A session: a sequence of host commands applied from a starting state. -/
def Game.run (g : Game) : List Step → Game
  | [] => g
  | s :: rest => Game.run (Step.apply g s) rest

/-! ## Theorems -/

/-- **C4**: for every tower, the upgrade command fails (surfacing only the
insufficient-funds alert) and changes nothing when
`money < level * 25 + 50`, the cost being computed from the pre-upgrade level
(so the sequence is 75, 100, 125, … for a tower starting at level 1); on
success it deducts that cost and applies exactly `level += 1`,
`damage = floor(damage * 1.5)`, `range += 10`, `fireRate *= 1.1`,
`upgradeCost += 25`. -/
theorem C4_upgrade_rule (g : Game) (i : ℕ) (t : Tower)
    (ht : g.towers.get? i = some t) :
    (g.money < (t.level : ℚ) * 25 + 50 →
      g.upgradeTower i =
        (g, some (UiEffect.alertNeedUpgrade ((t.level : ℚ) * 25 + 50)))) ∧
    ((t.level : ℚ) * 25 + 50 ≤ g.money →
      g.upgradeTower i =
        ({ g with money := g.money - ((t.level : ℚ) * 25 + 50),
                  towers := g.towers.set i (Tower.upgrade t) }, none) ∧
      (Tower.upgrade t).level = t.level + 1 ∧
      (Tower.upgrade t).damage = ((⌊t.damage * 1.5⌋ : ℤ) : ℚ) ∧
      (Tower.upgrade t).range = t.range + 10 ∧
      (Tower.upgrade t).fireRate = t.fireRate * 1.1 ∧
      (Tower.upgrade t).upgradeCost = t.upgradeCost + 25) := by
  constructor
  · intro h
    simp only [Game.upgradeTower, ht]
    rw [if_neg (not_le.mpr h)]
  · intro h
    simp only [Game.upgradeTower, ht]
    rw [if_pos h]
    exact ⟨rfl, rfl, rfl, rfl, rfl, rfl⟩

def C4Tower : Tower :=
  mkTower 60 60 "basic" ⟨50, 10, 100, 1, "blue", "Basic Tower"⟩

def C4Game : Game := { initialGame with towers := [C4Tower] }

/-- Witness for `C4_upgrade_rule`: a level-1 basic tower with 150 money; the
charged cost is 75 and the upgrade succeeds, leaving 75 money and a level-2
tower. -/
theorem C4_upgrade_rule_witness :
    ((C4Tower.level : ℚ) * 25 + 50 ≤ C4Game.money) ∧
    (C4Game.upgradeTower 0).2 = none ∧
    (C4Game.upgradeTower 0).1.money = C4Game.money - ((C4Tower.level : ℚ) * 25 + 50) ∧
    ((C4Game.upgradeTower 0).1.towers.get? 0).map Tower.level = some 2 := by
  have hle : (C4Tower.level : ℚ) * 25 + 50 ≤ C4Game.money := by
    norm_num [C4Tower, C4Game, initialGame, mkTower]
  have h := (C4_upgrade_rule C4Game 0 C4Tower rfl).2 hle
  refine ⟨hle, ?_, ?_, ?_⟩
  · rw [h.1]
  · rw [h.1]
  · rw [h.1]
    simp [C4Game, C4Tower, Tower.upgrade, mkTower]

/-- **C9 (amended)**: a placement click on an existing non-walkable cell is
silently rejected: the whole state is unchanged (so in particular no tower is
created and money is unchanged), and no error value or effect of any kind is
surfaced to the caller. -/
theorem C9_amended (g : Game) (x y : ℚ) (c : Cell)
    (hgo : g.gameOver = false) (hp : g.placingTower = true)
    (hc : cellAt g.grid ⌊y / GRID_SIZE⌋ ⌊x / GRID_SIZE⌋ = some c)
    (hw : c.walkable = false) :
    g.handleClick x y = (g, none) := by
  simp only [Game.handleClick, hgo, hp, hc, hw]
  simp

def C9Game : Game := initialGame.startPlacingTower "basic"

/-- **C9 counterexample**: in the (reachable) state obtained from the initial
game by selecting the basic tower, clicking the path cell at canvas point
(10, 290) — grid cell (0, 7), which `createGrid` marked non-walkable — is
rejected, but no `InvalidPlacement` (or any other) error value is surfaced to
the caller: the result carries `none` and the unchanged state, refuting the
claim that the failure is surfaced as an error value. -/
theorem C9_counterexample :
    C9Game.placingTower = true ∧
    (cellAt C9Game.grid 7 0).map Cell.walkable = some false ∧
    C9Game.handleClick 10 290 = (C9Game, none) := by
  refine ⟨rfl, ?_, ?_⟩
  · norm_num [C9Game, Game.startPlacingTower, towerTypes, initialGame, createGrid,
      createPath, cellAt, modifyCell, listModify, GRID_SIZE, GRID_WIDTH, GRID_HEIGHT,
      List.get?, Int.toNat, Option.map]
  · have hc : cellAt C9Game.grid ⌊(290 : ℚ) / GRID_SIZE⌋ ⌊(10 : ℚ) / GRID_SIZE⌋ =
        some ({ walkable := false, tower := none } : Cell) := by
      norm_num [C9Game, Game.startPlacingTower, towerTypes, initialGame, createGrid,
        createPath, cellAt, modifyCell, listModify, GRID_SIZE, GRID_WIDTH, GRID_HEIGHT,
      List.get?, Int.toNat, Option.map]
    exact C9_amended C9Game 10 290 _ rfl rfl hc rfl

/-- Witness for `C9_amended`: the same reachable placement state and path
cell as the counterexample. -/
theorem C9_amended_witness :
    C9Game.gameOver = false ∧ C9Game.placingTower = true ∧
    C9Game.handleClick 10 290 = (C9Game, none) := by
  have hc : cellAt C9Game.grid ⌊(290 : ℚ) / GRID_SIZE⌋ ⌊(10 : ℚ) / GRID_SIZE⌋ =
      some ({ walkable := false, tower := none } : Cell) := by
    norm_num [C9Game, Game.startPlacingTower, towerTypes, initialGame, createGrid,
      createPath, cellAt, modifyCell, listModify, GRID_SIZE, GRID_WIDTH, GRID_HEIGHT,
      List.get?, Int.toNat, Option.map]
  exact ⟨rfl, rfl, C9_amended C9Game 10 290 _ rfl rfl hc rfl⟩

/-- `WaveManager.update` never changes the length of the outer wave list: it
only drains the inner `enemies` queues (via `set`) and advances the index. -/
lemma WaveMgr.update_waves_length (m : WaveMgr) (dt : ℚ) (es : List Enemy)
    (path : List Point) (nid : ℕ) :
    (m.update dt es path nid).1.waves.length = m.waves.length := by
  unfold WaveMgr.update
  split
  · rfl
  split
  · rfl
  cases hw : ((m.waves[m.currentWaveIndex]?).getD ⟨[]⟩).enemies with
  | nil => simp only [hw]; split <;> rfl
  | cons ty rest =>
    simp only [hw]
    split
    · cases he : enemyTypes ty <;> simp [List.length_set]
    · rfl

/-- A frame tick never changes the length of the wave list. -/
lemma Game.tick_waves_length (g : Game) (dt : ℚ) :
    (g.update dt).waveMgr.waves.length = g.waveMgr.waves.length := by
  unfold Game.update
  split
  · rfl
  · unfold Game.winCheck
    split <;>
      simp [Game.projectilePhase, Game.towerPhase, Game.enemyPhase, Game.wavePhase,
        WaveMgr.update_waves_length]

/-- A frame tick can set `gameWon` only when the wave list is empty. -/
lemma Game.update_gameWon (g : Game) (dt : ℚ)
    (hlen : g.waveMgr.waves.length ≠ 0) (hw : g.gameWon = false) :
    (g.update dt).gameWon = false := by
  unfold Game.update
  split
  · exact hw
  · have h4 : ((((g.wavePhase dt).enemyPhase dt).towerPhase dt).projectilePhase
        dt).waveMgr.waves.length ≠ 0 := by
      simpa [Game.projectilePhase, Game.towerPhase, Game.enemyPhase, Game.wavePhase,
        WaveMgr.update_waves_length] using hlen
    have h4w : ((((g.wavePhase dt).enemyPhase dt).towerPhase dt).projectilePhase
        dt).gameWon = g.gameWon := by
      simp [Game.projectilePhase, Game.towerPhase, Game.enemyPhase, Game.wavePhase]
    unfold Game.winCheck
    split
    · next hcond =>
      exfalso
      simp only [Bool.and_eq_true, beq_iff_eq] at hcond
      exact h4 hcond.1
    · rw [h4w, hw]

/-- A click never touches the wave manager or the `gameWon` flag. -/
lemma Game.handleClick_waveMgr_gameWon (g : Game) (x y : ℚ) :
    (g.handleClick x y).1.waveMgr = g.waveMgr ∧ (g.handleClick x y).1.gameWon = g.gameWon := by
  unfold Game.handleClick Game.upgradeTower
  split
  · exact ⟨rfl, rfl⟩
  split
  · cases hc : cellAt g.grid ⌊y / GRID_SIZE⌋ ⌊x / GRID_SIZE⌋ with
    | none => simp [hc]
    | some c =>
      simp only [hc]
      split
      · cases ht : towerTypes g.selectedTowerType with
        | none => simp [ht]
        | some tt =>
          simp only [ht]
          split <;> simp
      · simp
  · cases hf : findClickedTower x y g.towers 0 with
    | none => simp [hf]
    | some i =>
      simp only [hf]
      cases hg : g.towers.get? i with
      | none => simp [hg]
      | some t =>
        simp only [hg]
        split <;> simp

/-- Selecting a tower type never touches the wave manager or `gameWon`. -/
lemma Game.startPlacingTower_waveMgr_gameWon (g : Game) (ty : String) :
    (g.startPlacingTower ty).waveMgr = g.waveMgr ∧
    (g.startPlacingTower ty).gameWon = g.gameWon := by
  unfold Game.startPlacingTower
  split <;> simp

/-- Invariant behind C1: a session that starts with a non-empty wave list and
`gameWon = false` keeps both forever. -/
lemma Game.run_never_won (g : Game) (hlen : g.waveMgr.waves.length ≠ 0)
    (hw : g.gameWon = false) (steps : List Step) :
    (g.run steps).waveMgr.waves.length ≠ 0 ∧ (g.run steps).gameWon = false := by
  induction steps generalizing g with
  | nil => exact ⟨hlen, hw⟩
  | cons s rest ih =>
    cases s with
    | tick dt =>
      have h1 : (g.update dt).waveMgr.waves.length ≠ 0 := by
        rw [Game.tick_waves_length]
        exact hlen
      exact ih _ h1 (Game.update_gameWon g dt hlen hw)
    | click x y =>
      have h := Game.handleClick_waveMgr_gameWon g x y
      have h1 : (g.handleClick x y).1.waveMgr.waves.length ≠ 0 := by
        rw [h.1]
        exact hlen
      have h2 : (g.handleClick x y).1.gameWon = false := by
        rw [h.2]
        exact hw
      exact ih _ h1 h2
    | selectTower ty =>
      have h := Game.startPlacingTower_waveMgr_gameWon g ty
      have h1 : (g.startPlacingTower ty).waveMgr.waves.length ≠ 0 := by
        rw [h.1]
        exact hlen
      have h2 : (g.startPlacingTower ty).gameWon = false := by
        rw [h.2]
        exact hw
      exact ih _ h1 h2

/-- **C1 (code bug)**: starting from the constructed initial state, no
sequence of host commands (ticks, clicks, tower selections) can ever set
`gameWon`.  The win check in `Game.update` tests
`this.waveManager.waves.length === 0`, but the outer wave list always keeps
its six (progressively drained) wave objects — completed waves are never
removed from the list, only `currentWaveIndex` advances past them.  So even
once the scheduler is all-complete (`currentWaveIndex = 6`) with no live
enemies, `gameWon` stays false, contradicting the source's own advertised
"Win/loss conditions (survive all waves, lose all lives)". -/
theorem C1_never_won : ∀ steps : List Step, (initialGame.run steps).gameWon = false := by
  intro steps
  exact (Game.run_never_won initialGame
    (by norm_num [initialGame, createWaves]) rfl steps).2

/-- **C5**: the scheduler advances the wave index (its `Spawning -> Idle`
transition) only when the current wave's spawn queue is empty AND the
simulation's live enemy collection is empty, and then it sets the cooldown to
the wave interval, advances the index by one and spawns nothing; and while
spawning (wave index in range, cooldown elapsed) with a non-empty queue whose
front archetype is in the enemy table, it accumulates `spawnTimer` by `dt`,
and exactly when the accumulated timer reaches 1 second it dequeues the front
archetype (FIFO), appends one new enemy instantiated at the path start, and
resets the timer to 0. -/
theorem C5_wave_scheduler (m : WaveMgr) (dt : ℚ) (enemies : List Enemy)
    (path : List Point) (nid : ℕ) :
    ((m.update dt enemies path nid).1.currentWaveIndex ≠ m.currentWaveIndex →
      ((m.waves[m.currentWaveIndex]?).getD ⟨[]⟩).enemies = [] ∧ enemies = [] ∧
      (m.update dt enemies path nid).1.currentWaveIndex = m.currentWaveIndex + 1 ∧
      (m.update dt enemies path nid).1.waveCooldown = m.waveInterval ∧
      (m.update dt enemies path nid).2.1 = enemies) ∧
    (m.currentWaveIndex < m.waves.length → ¬ m.waveCooldown > 0 →
      ∀ ty rest, ((m.waves[m.currentWaveIndex]?).getD ⟨[]⟩).enemies = ty :: rest →
      ∀ stats, enemyTypes ty = some stats →
        (1 ≤ m.spawnTimer.getD 0 + dt →
          (m.update dt enemies path nid).2.1 = enemies ++ [mkEnemy nid ty stats path] ∧
          (m.update dt enemies path nid).1.waves =
            m.waves.set m.currentWaveIndex ⟨rest⟩ ∧
          (m.update dt enemies path nid).1.spawnTimer = some 0 ∧
          (mkEnemy nid ty stats path).x = (path.headD ⟨0, 0⟩).x ∧
          (mkEnemy nid ty stats path).y = (path.headD ⟨0, 0⟩).y ∧
          (mkEnemy nid ty stats path).pathIndex = 0) ∧
        (¬ 1 ≤ m.spawnTimer.getD 0 + dt →
          (m.update dt enemies path nid).2.1 = enemies ∧
          (m.update dt enemies path nid).1.spawnTimer =
            some (m.spawnTimer.getD 0 + dt) ∧
          (m.update dt enemies path nid).1.waves = m.waves)) := by
  constructor
  · intro hchg
    by_cases h1 : m.currentWaveIndex ≥ m.waves.length
    · exact absurd (by simp [WaveMgr.update, h1]) hchg
    by_cases h2 : m.waveCooldown > 0
    · exact absurd (by simp [WaveMgr.update, h1, h2]) hchg
    cases hw2 : ((m.waves[m.currentWaveIndex]?).getD ⟨[]⟩).enemies with
    | cons ty rest =>
      exfalso
      apply hchg
      by_cases h3 : (1 : ℚ) ≤ m.spawnTimer.getD 0 + dt
      · cases hty : enemyTypes ty <;>
          simp [WaveMgr.update, h1, h2, hw2, h3, hty, ge_iff_le]
      · simp [WaveMgr.update, h1, h2, hw2, h3, ge_iff_le]
    | nil =>
      by_cases h4 : enemies.length = 0
      · refine ⟨rfl, List.length_eq_zero.mp h4, ?_, ?_, ?_⟩ <;>
          simp [WaveMgr.update, h1, h2, hw2, h4]
      · exact absurd (by simp [WaveMgr.update, h1, h2, hw2, h4]) hchg
  · intro hidx hcd ty rest hw2 stats hty
    have h1 : ¬ m.currentWaveIndex ≥ m.waves.length := not_le.mpr hidx
    constructor
    · intro h3
      refine ⟨?_, ?_, ?_, rfl, rfl, rfl⟩ <;>
        simp [WaveMgr.update, h1, hcd, hw2, h3, hty, ge_iff_le]
    · intro h3
      refine ⟨?_, ?_, ?_⟩ <;>
        simp [WaveMgr.update, h1, hcd, hw2, h3, hty, ge_iff_le]

def C5Mgr : WaveMgr :=
  { waves := createWaves, currentWaveIndex := 0, waveCooldown := 0, waveInterval := 5,
    totalWaves := 6, spawnTimer := none }

/-- Witness for `C5_wave_scheduler`: the freshly constructed scheduler, one
1-second tick with no live enemies: the front `basic` archetype of wave 0 is
dequeued and one enemy appears at the path start. -/
theorem C5_wave_scheduler_witness :
    (C5Mgr.update 1 [] createPath 0).2.1 =
      [mkEnemy 0 "basic" ⟨50, 1, 10, "red", 20⟩ createPath] ∧
    (C5Mgr.update 1 [] createPath 0).1.waves =
      createWaves.set 0 ⟨["basic", "basic", "basic", "basic"]⟩ ∧
    (C5Mgr.update 1 [] createPath 0).1.spawnTimer = some 0 ∧
    (mkEnemy 0 "basic" ⟨50, 1, 10, "red", 20⟩ createPath).x = 0 ∧
    (mkEnemy 0 "basic" ⟨50, 1, 10, "red", 20⟩ createPath).y = 280 := by
  have h := ((C5_wave_scheduler C5Mgr 1 [] createPath 0).2
    (by norm_num [C5Mgr, createWaves])
    (by norm_num [C5Mgr])
    "basic" ["basic", "basic", "basic", "basic"] rfl
    ⟨50, 1, 10, "red", 20⟩ (by simp [enemyTypes])).1
    (by norm_num [C5Mgr, Option.getD])
  refine ⟨?_, ?_, ?_, rfl, rfl⟩
  · rw [h.1]
    simp [C5Mgr]
  · rw [h.2.1]
    simp [C5Mgr]
  · exact h.2.2.1

/-- `dist <= this.range` of the target scan, as the equivalent comparison of
squares. -/
def Tower.inRange (t : Tower) (e : Enemy) : Prop :=
  t.distSqTo e ≤ t.range * t.range

/-- When no scanned enemy is in range the accumulator passes through the scan
unchanged (no target is ever selected). -/
lemma Tower.findTargetAux_none_of (t : Tower) :
    ∀ (l : List Enemy) (acc : Option (Enemy × ℚ)),
      (∀ e ∈ l, ¬ t.inRange e) → Tower.findTargetAux t l acc = acc := by
  intro l
  induction l with
  | nil => intro acc _; rfl
  | cons x xs ih =>
    intro acc hno
    have hx : ¬ t.distSqTo x ≤ t.range * t.range := hno x (by simp)
    have hxs : ∀ e ∈ xs, ¬ t.inRange e := fun e he => hno e (by simp [he])
    cases acc with
    | none => simpa [Tower.findTargetAux, hx] using ih none hxs
    | some a => simpa [Tower.findTargetAux, hx] using ih (some a) hxs

/-- The scan yields a target as soon as the accumulator already holds one or
some scanned enemy is in range. -/
lemma Tower.findTargetAux_isSome (t : Tower) :
    ∀ (l : List Enemy) (acc : Option (Enemy × ℚ)),
      (acc.isSome = true ∨ ∃ e ∈ l, t.inRange e) →
      (Tower.findTargetAux t l acc).isSome = true := by
  intro l
  induction l with
  | nil =>
    intro acc h
    rcases h with h | ⟨e, he, _⟩
    · exact h
    · simp at he
  | cons x xs ih =>
    intro acc h
    simp only [Tower.findTargetAux]
    apply ih
    rcases h with h | ⟨e, he, hr⟩
    · cases acc with
      | none => simp at h
      | some a =>
        left
        by_cases hc : t.distSqTo x ≤ t.range * t.range ∧ t.distSqTo x < a.2 <;>
          simp [hc]
    · rcases List.mem_cons.mp he with rfl | he2
      · left
        simp only [Tower.inRange] at hr
        cases acc with
        | none => simp [hr]
        | some a =>
          by_cases hlt : t.distSqTo e ≤ t.range * t.range ∧ t.distSqTo e < a.2 <;>
            simp [hlt]
      · right
        exact ⟨e, he2, hr⟩

/-- Full characterisation of a successful target scan: the result carries its
squared distance; it is no farther than any in-range enemy of the scanned
list; and it either came straight from the accumulator, or it is an in-range
element of the list that strictly beats the accumulator, strictly beats every
in-range element before it (ties keep the earlier, first-encountered enemy),
and is no farther than every in-range element after it. -/
lemma Tower.findTargetAux_some (t : Tower) :
    ∀ (l : List Enemy) (acc : Option (Enemy × ℚ)) (e : Enemy) (d : ℚ),
    (∀ a : Enemy × ℚ, acc = some a → a.2 = t.distSqTo a.1) →
    Tower.findTargetAux t l acc = some (e, d) →
    d = t.distSqTo e ∧
    (∀ e2 ∈ l, t.inRange e2 → d ≤ t.distSqTo e2) ∧
    (acc = some (e, d) ∨
      (t.inRange e ∧ (∀ a : Enemy × ℚ, acc = some a → d < a.2) ∧
        ∃ l1 l2, l = l1 ++ e :: l2 ∧
          ∀ e2 ∈ l1, t.inRange e2 → d < t.distSqTo e2)) := by
  intro l
  induction l with
  | nil =>
    intro acc e d hacc h
    simp only [Tower.findTargetAux] at h
    exact ⟨by simpa using hacc _ h, by simp, Or.inl h⟩
  | cons x xs ih =>
    intro acc e d hacc h
    cases acc with
    | none =>
      simp only [Tower.findTargetAux] at h
      by_cases hr : t.distSqTo x ≤ t.range * t.range
      · rw [if_pos hr] at h
        have hacc2 : ∀ b : Enemy × ℚ, some (x, t.distSqTo x) = some b →
            b.2 = t.distSqTo b.1 := by
          rintro b hb
          cases hb
          rfl
        obtain ⟨hd, hall, hdisj⟩ := ih (some (x, t.distSqTo x)) e d hacc2 h
        refine ⟨hd, ?_, ?_⟩
        · intro e2 he2 hr2
          rcases List.mem_cons.mp he2 with rfl | he3
          · rcases hdisj with heq | ⟨_, hlt2, _⟩
            · cases heq
              exact le_rfl
            · exact le_of_lt (hlt2 (e2, t.distSqTo e2) rfl)
          · exact hall e2 he3 hr2
        · rcases hdisj with heq | ⟨hre, hlt2, l1, l2, hsplit, hearl⟩
          · cases heq
            refine Or.inr ⟨hr, ?_, [], xs, rfl, by simp⟩
            rintro b hb
            cases hb
          · refine Or.inr ⟨hre, ?_, x :: l1, l2, by rw [hsplit]; rfl, ?_⟩
            · rintro b hb
              cases hb
            · intro e2 he2 hr2
              rcases List.mem_cons.mp he2 with rfl | he3
              · exact hlt2 (e2, t.distSqTo e2) rfl
              · exact hearl e2 he3 hr2
      · rw [if_neg hr] at h
        obtain ⟨hd, hall, hdisj⟩ := ih none e d (by rintro b hb; cases hb) h
        rcases hdisj with heq | ⟨hre, _, l1, l2, hsplit, hearl⟩
        · cases heq
        · refine ⟨hd, ?_, ?_⟩
          · intro e2 he2 hr2
            rcases List.mem_cons.mp he2 with rfl | he3
            · exact absurd hr2 hr
            · exact hall e2 he3 hr2
          · refine Or.inr ⟨hre, ?_, x :: l1, l2, by rw [hsplit]; rfl, ?_⟩
            · rintro b hb
              cases hb
            · intro e2 he2 hr2
              rcases List.mem_cons.mp he2 with rfl | he3
              · exact absurd hr2 hr
              · exact hearl e2 he3 hr2
    | some a =>
      have ha : a.2 = t.distSqTo a.1 := hacc a rfl
      simp only [Tower.findTargetAux] at h
      by_cases hc : t.distSqTo x ≤ t.range * t.range ∧ t.distSqTo x < a.2
      · rw [if_pos hc] at h
        have hacc2 : ∀ b : Enemy × ℚ, some (x, t.distSqTo x) = some b →
            b.2 = t.distSqTo b.1 := by
          rintro b hb
          cases hb
          rfl
        obtain ⟨hd, hall, hdisj⟩ := ih (some (x, t.distSqTo x)) e d hacc2 h
        have hdx : d ≤ t.distSqTo x := by
          rcases hdisj with heq | ⟨_, hlt2, _⟩
          · cases heq
            exact le_rfl
          · exact le_of_lt (hlt2 (x, t.distSqTo x) rfl)
        refine ⟨hd, ?_, ?_⟩
        · intro e2 he2 hr2
          rcases List.mem_cons.mp he2 with rfl | he3
          · exact hdx
          · exact hall e2 he3 hr2
        · rcases hdisj with heq | ⟨hre, hlt2, l1, l2, hsplit, hearl⟩
          · cases heq
            refine Or.inr ⟨hc.1, ?_, [], xs, rfl, by simp⟩
            rintro b hb
            cases hb
            exact hc.2
          · refine Or.inr ⟨hre, ?_, x :: l1, l2, by rw [hsplit]; rfl, ?_⟩
            · rintro b hb
              cases hb
              exact lt_trans (hlt2 (x, t.distSqTo x) rfl) hc.2
            · intro e2 he2 hr2
              rcases List.mem_cons.mp he2 with rfl | he3
              · exact hlt2 (e2, t.distSqTo e2) rfl
              · exact hearl e2 he3 hr2
      · rw [if_neg hc] at h
        obtain ⟨hd, hall, hdisj⟩ := ih (some a) e d hacc h
        have hxbound : t.inRange x → a.2 ≤ t.distSqTo x := by
          intro hr2
          by_contra hcon
          exact hc ⟨hr2, lt_of_not_le hcon⟩
        rcases hdisj with heq | ⟨hre, hlt2, l1, l2, hsplit, hearl⟩
        · have hda : d = a.2 := by
            cases heq
            rfl
          refine ⟨hd, ?_, Or.inl heq⟩
          intro e2 he2 hr2
          rcases List.mem_cons.mp he2 with rfl | he3
          · rw [hda]
            exact hxbound hr2
          · exact hall e2 he3 hr2
        · have hda : d < a.2 := hlt2 a rfl
          refine ⟨hd, ?_, ?_⟩
          · intro e2 he2 hr2
            rcases List.mem_cons.mp he2 with rfl | he3
            · exact le_of_lt (lt_of_lt_of_le hda (hxbound hr2))
            · exact hall e2 he3 hr2
          · refine Or.inr ⟨hre, hlt2, x :: l1, l2, by rw [hsplit]; rfl, ?_⟩
            intro e2 he2 hr2
            rcases List.mem_cons.mp he2 with rfl | he3
            · exact lt_of_lt_of_le hda (hxbound hr2)
            · exact hearl e2 he3 hr2

/-- **C7**: when a tower updates with its cooldown already at or below zero,
(a) if no live enemy is inside its range it emits nothing and the cooldown is
not reset — it is only decremented by `dt`, staying at or below zero; (b) if
some live enemy is in range a projectile is emitted; and (c) any emitted
projectile originates at the tower, carries its damage and colour, targets an
in-range enemy of minimal Euclidean distance, ties broken in favour of the
first such enemy in iteration order (it is strictly nearer than every
in-range enemy listed before it), and the cooldown resets to `1/fireRate`. -/
theorem C7_targeting (t : Tower) (dt : ℚ) (enemies : List Enemy)
    (hcd : t.fireCooldown ≤ 0) (hdt : 0 ≤ dt) :
    ((∀ e ∈ enemies, ¬ t.inRange e) →
      (t.update dt enemies).2 = none ∧
      (t.update dt enemies).1.fireCooldown = t.fireCooldown - dt ∧
      (t.update dt enemies).1.fireCooldown ≤ 0) ∧
    ((∃ e ∈ enemies, t.inRange e) →
      ∃ p, (t.update dt enemies).2 = some p) ∧
    (∀ p, (t.update dt enemies).2 = some p →
      ∃ l1 e l2, enemies = l1 ++ e :: l2 ∧ p.target = e.id ∧ t.inRange e ∧
        p.damage = t.damage ∧ p.x = t.x ∧ p.y = t.y ∧ p.color = t.color ∧
        (t.update dt enemies).1.fireCooldown = 1 / t.fireRate ∧
        (∀ e2 ∈ enemies, t.inRange e2 → t.distSqTo e ≤ t.distSqTo e2) ∧
        (∀ e2 ∈ l1, t.inRange e2 → t.distSqTo e < t.distSqTo e2)) := by
  have hcd1 : t.fireCooldown - dt ≤ 0 := by linarith
  refine ⟨?_, ?_, ?_⟩
  · intro hnone
    simp only [Tower.update]
    rw [if_pos hcd1]
    rw [Tower.findTargetAux_none_of { t with fireCooldown := t.fireCooldown - dt }
      enemies none (fun e he => hnone e he)]
    exact ⟨rfl, rfl, hcd1⟩
  · rintro ⟨e, he, hre⟩
    simp only [Tower.update]
    rw [if_pos hcd1]
    have hs := Tower.findTargetAux_isSome { t with fireCooldown := t.fireCooldown - dt }
      enemies none (Or.inr ⟨e, he, hre⟩)
    obtain ⟨a, ha⟩ := Option.isSome_iff_exists.mp hs
    rw [ha]
    exact ⟨_, rfl⟩
  · intro p hp
    simp only [Tower.update] at hp
    rw [if_pos hcd1] at hp
    cases hfind : Tower.findTargetAux { t with fireCooldown := t.fireCooldown - dt }
        enemies none with
    | none =>
      rw [hfind] at hp
      simp at hp
    | some a =>
      rw [hfind] at hp
      obtain ⟨e0, d0⟩ := a
      simp only at hp
      injection hp with hp2
      subst hp2
      obtain ⟨hd, hall, hdisj⟩ :=
        Tower.findTargetAux_some { t with fireCooldown := t.fireCooldown - dt }
          enemies none e0 d0 (by rintro b hb; cases hb) hfind
      rcases hdisj with heq | ⟨hre, _, l1, l2, hsplit, hearl⟩
      · cases heq
      · refine ⟨l1, e0, l2, hsplit, rfl, hre, rfl, rfl, rfl, rfl, ?_, ?_, ?_⟩
        · simp only [Tower.update]
          rw [if_pos hcd1, hfind]
        · exact fun e2 he2 hr2 => hd ▸ hall e2 he2 hr2
        · exact fun e2 he2 hr2 => hd ▸ hearl e2 he2 hr2

def C7Tower : Tower := mkTower 0 0 "basic" ⟨50, 10, 100, 1, "blue", "Basic Tower"⟩

def C7EnemyFar : Enemy := ⟨1, "basic", 50, 50, 1, 10, "red", 20, 0, 50, 0⟩

def C7EnemyNear : Enemy := ⟨2, "basic", 50, 50, 1, 10, "red", 20, 0, 30, 0⟩

/-- Witness for `C7_targeting`: a ready basic tower at the origin with two
in-range enemies at distances 50 and 30; a projectile is emitted, and by the
characterisation it targets the strictly nearest one. -/
theorem C7_targeting_witness :
    C7Tower.fireCooldown ≤ 0 ∧ (0 : ℚ) ≤ 1 ∧
    ∃ p, (C7Tower.update 1 [C7EnemyFar, C7EnemyNear]).2 = some p := by
  have hcd : C7Tower.fireCooldown ≤ 0 := by norm_num [C7Tower, mkTower]
  have h := C7_targeting C7Tower 1 [C7EnemyFar, C7EnemyNear] hcd (by norm_num)
  refine ⟨hcd, by norm_num, h.2.1 ⟨C7EnemyNear, by simp, ?_⟩⟩
  norm_num [Tower.inRange, Tower.distSqTo, C7Tower, C7EnemyNear, mkTower]

/-- One host-visible event in the life of a single tower: a frame tick (the
`Tower.update` call of that frame, with the live-enemy list it saw) or an
upgrade command applied between frames. -/
inductive TowerEv where
  | frame (dt : ℚ) (enemies : List Enemy)
  | upg
deriving DecidableEq

/-- The simulated time an event accounts for (an upgrade is instantaneous). -/
def TowerEv.dt : TowerEv → ℚ
  | .frame dt _ => dt
  | .upg => 0

def TowerEv.applyEv (t : Tower) : TowerEv → Tower
  | .frame dt es => (t.update dt es).1
  | .upg => t.upgrade

/-- Whether the tower fires on this event. -/
def TowerEv.firesOn (t : Tower) : TowerEv → Bool
  | .frame dt es => (t.update dt es).2.isSome
  | .upg => false

/-- Cumulative simulated time up to and including the first event of the
trace on which the tower fires (`none` when it never fires). -/
def timeToFirstFire (t : Tower) : List TowerEv → Option ℚ
  | [] => none
  | ev :: evs =>
    if TowerEv.firesOn t ev then some (TowerEv.dt ev)
    else (timeToFirstFire (TowerEv.applyEv t ev) evs).map (fun s => TowerEv.dt ev + s)

/-- A `Tower.update` call that does not fire only decrements the cooldown. -/
lemma Tower.update_not_fired (t : Tower) (dt : ℚ) (es : List Enemy)
    (h : (t.update dt es).2 = none) :
    (t.update dt es).1 = { t with fireCooldown := t.fireCooldown - dt } := by
  simp only [Tower.update] at h ⊢
  by_cases hc : t.fireCooldown - dt ≤ 0
  · rw [if_pos hc] at h ⊢
    cases hfind : Tower.findTargetAux { t with fireCooldown := t.fireCooldown - dt }
        es none with
    | none => rfl
    | some a =>
      rw [hfind] at h
      simp at h
  · rw [if_neg hc]

/-- A `Tower.update` call that fires ends with `fireCooldown = 1/fireRate`
(the tower's current rate, which the tick itself never changes), and could
only fire because the decremented cooldown had reached zero. -/
lemma Tower.update_fired (t : Tower) (dt : ℚ) (es : List Enemy) (p : Projectile)
    (h : (t.update dt es).2 = some p) :
    (t.update dt es).1.fireCooldown = 1 / (t.update dt es).1.fireRate ∧
    (t.update dt es).1.fireRate = t.fireRate ∧ t.fireCooldown - dt ≤ 0 := by
  simp only [Tower.update] at h ⊢
  by_cases hc : t.fireCooldown - dt ≤ 0
  · rw [if_pos hc] at h ⊢
    cases hfind : Tower.findTargetAux { t with fireCooldown := t.fireCooldown - dt }
        es none with
    | none =>
      rw [hfind] at h
      simp at h
    | some a => exact ⟨rfl, rfl, hc⟩
  · rw [if_neg hc] at h
    simp at h

/-- Core of C6: from any tower state, the cumulative `dt` up to and including
the next firing event is at least the current cooldown. -/
lemma timeToFirstFire_ge_cooldown (evs : List TowerEv) :
    ∀ (t : Tower) (T : ℚ), timeToFirstFire t evs = some T → t.fireCooldown ≤ T := by
  induction evs with
  | nil =>
    intro t T h
    simp [timeToFirstFire] at h
  | cons ev evs ih =>
    intro t T h
    rw [timeToFirstFire] at h
    by_cases hf : TowerEv.firesOn t ev
    · rw [if_pos hf] at h
      injection h with h2
      subst h2
      cases ev with
      | upg => simp [TowerEv.firesOn] at hf
      | frame dt es =>
        obtain ⟨p, hp⟩ := Option.isSome_iff_exists.mp hf
        have := (Tower.update_fired t dt es p hp).2.2
        simp only [TowerEv.dt]
        linarith
    · rw [if_neg hf] at h
      obtain ⟨T2, hT2, rfl⟩ := Option.map_eq_some'.mp h
      have hc := ih (TowerEv.applyEv t ev) T2 hT2
      cases ev with
      | upg =>
        simp only [TowerEv.applyEv, Tower.upgrade] at hc
        simp only [TowerEv.dt]
        linarith
      | frame dt es =>
        have hnot : (t.update dt es).2 = none := by
          simp only [TowerEv.firesOn] at hf
          exact Option.not_isSome_iff_eq_none.mp hf
        have hcd := Tower.update_not_fired t dt es hnot
        rw [show TowerEv.applyEv t (TowerEv.frame dt es) = (t.update dt es).1 from rfl,
          hcd] at hc
        simp only [TowerEv.dt]
        simp only at hc
        linarith

/-- **C6**: immediately after a tower fires, its cooldown equals
`1/fireRate`, computed with the tower's current (post-upgrade) `fireRate`;
and along any subsequent trace of frame ticks and upgrade commands, the
cumulative simulated time up to and including its next firing is at least
that `1/fireRate`. -/
theorem C6_fire_cooldown (t : Tower) (dt : ℚ) (es : List Enemy) (p : Projectile)
    (hfire : (t.update dt es).2 = some p) (evs : List TowerEv) :
    (t.update dt es).1.fireCooldown = 1 / (t.update dt es).1.fireRate ∧
    ∀ T, timeToFirstFire ((t.update dt es).1) evs = some T →
      1 / (t.update dt es).1.fireRate ≤ T := by
  have h1 := Tower.update_fired t dt es p hfire
  refine ⟨h1.1, fun T hT => ?_⟩
  have := timeToFirstFire_ge_cooldown evs ((t.update dt es).1) T hT
  rw [h1.1] at this
  exact this

def C6Tower : Tower := mkTower 0 0 "basic" ⟨50, 10, 100, 1, "blue", "Basic Tower"⟩

def C6Enemy : Enemy := ⟨0, "basic", 50, 50, 1, 10, "red", 20, 0, 0, 0⟩

def C6Trace : List TowerEv :=
  [TowerEv.frame (1/2) [C6Enemy], TowerEv.frame (1/2) [C6Enemy]]

/-- Witness for `C6_fire_cooldown`: a basic tower (`fireRate = 1`) fires at an
enemy on its own cell, ends with cooldown `1/1`, and over the following two
half-second frames its next firing happens after exactly 1 second of
simulated time, which is at least `1/fireRate`. -/
theorem C6_fire_cooldown_witness :
    (C6Tower.update 1 [C6Enemy]).2 = some (mkProjectile 0 0 0 10 "blue") ∧
    (C6Tower.update 1 [C6Enemy]).1.fireCooldown =
      1 / (C6Tower.update 1 [C6Enemy]).1.fireRate ∧
    timeToFirstFire (C6Tower.update 1 [C6Enemy]).1 C6Trace = some 1 ∧
    1 / (C6Tower.update 1 [C6Enemy]).1.fireRate ≤ 1 := by
  have hfire : (C6Tower.update 1 [C6Enemy]).2 = some (mkProjectile 0 0 0 10 "blue") := by
    norm_num [C6Tower, C6Enemy, mkTower, Tower.update, Tower.findTargetAux,
      Tower.distSqTo, mkProjectile]
  have h := C6_fire_cooldown C6Tower 1 [C6Enemy] (mkProjectile 0 0 0 10 "blue") hfire C6Trace
  have httff : timeToFirstFire (C6Tower.update 1 [C6Enemy]).1 C6Trace = some 1 := by
    norm_num [C6Tower, C6Enemy, C6Trace, mkTower, Tower.update, Tower.findTargetAux,
      Tower.distSqTo, timeToFirstFire, TowerEv.firesOn, TowerEv.applyEv, TowerEv.dt,
      mkProjectile]
  exact ⟨hfire, h.1, httff, h.2 1 httff⟩

/-- **C8 (amended)**: the only staleness `Projectile.update` detects is a
missing or already-dead (`health <= 0`) target object: then it expires with
no damage and no change to any enemy.  A target object with positive health
is chased regardless of whether it is still in the live collection: damage is
applied to the referenced object (live or removed) exactly when it is within
the 5-unit hit threshold, and otherwise the projectile stays unexpired and
keeps flying. -/
theorem C8_stale_target (p : Projectile) (dt : ℚ) (live ghosts : List Enemy) (tgt : Enemy)
    (hfind : findEnemy p.target (live ++ ghosts) = some tgt) :
    (tgt.health ≤ 0 →
      (p.update dt live ghosts).1.markedForDeletion = true ∧
      (p.update dt live ghosts).2.1 = live ∧ (p.update dt live ghosts).2.2 = ghosts) ∧
    (0 < tgt.health →
      ((tgt.x - p.x) * (tgt.x - p.x) + (tgt.y - p.y) * (tgt.y - p.y) < 25 →
        (p.update dt live ghosts).1.markedForDeletion = true ∧
        (p.update dt live ghosts).2 = damageEnemy p.target p.damage live ghosts) ∧
      (¬ (tgt.x - p.x) * (tgt.x - p.x) + (tgt.y - p.y) * (tgt.y - p.y) < 25 →
        (p.update dt live ghosts).1.markedForDeletion = p.markedForDeletion ∧
        (p.update dt live ghosts).2.1 = live ∧ (p.update dt live ghosts).2.2 = ghosts)) := by
  refine ⟨?_, ?_⟩
  · intro hdead
    simp only [Projectile.update]
    simp only [hfind]
    rw [if_pos hdead]
    exact ⟨rfl, rfl, rfl⟩
  · intro halive
    have hnd : ¬ tgt.health ≤ 0 := not_le.mpr halive
    constructor
    · intro hclose
      simp only [Projectile.update]
      simp only [hfind]
      rw [if_neg hnd, if_pos hclose]
      exact ⟨rfl, rfl⟩
    · intro hfar
      simp only [Projectile.update]
      simp only [hfind]
      rw [if_neg hnd, if_neg hfar]
      exact ⟨rfl, rfl, rfl⟩

def C8Ghost : Enemy := ⟨0, "basic", 50, 50, 1, 10, "red", 20, 24, 0, 0⟩

def C8ProjFar : Projectile := mkProjectile 10 0 0 10 "blue"

def C8ProjNear : Projectile := mkProjectile 0 0 0 10 "blue"

/-- **C8 counterexample**: a projectile whose target enemy has been removed
from the live collection (by escape, so its health 50 is still positive) is
NOT marked expired: here the live collection is empty, the referenced object
survives only as a removed ghost 10 units away, and after the update the
projectile is still unexpired (it kept homing); a second projectile sitting
on top of the same removed object even applies its damage to it.  Both refute
"target already removed from the live enemy collection ⟹ marked expired and
no damage applied". -/
theorem C8_counterexample :
    findEnemy C8ProjFar.target [] = none ∧
    (C8ProjFar.update 1 [] [C8Ghost]).1.markedForDeletion = false ∧
    ((C8ProjNear.update 1 [] [C8Ghost]).2.2.map Enemy.health = [40] ∧
      (C8ProjNear.update 1 [] [C8Ghost]).1.markedForDeletion = true) := by
  refine ⟨rfl, ?_, ?_, ?_⟩
  · norm_num [C8ProjFar, C8Ghost, Projectile.update, findEnemy, mkProjectile]
  · norm_num [C8ProjNear, C8Ghost, Projectile.update, findEnemy, mapEnemy,
      damageEnemy, mkProjectile]
  · norm_num [C8ProjNear, C8Ghost, Projectile.update, findEnemy, mapEnemy,
      damageEnemy, mkProjectile]

def C8DeadEnemy : Enemy := ⟨0, "basic", 0, 50, 1, 10, "red", 20, 24, 0, 0⟩

/-- Witness for `C8_stale_target`: a projectile aimed at a dead (health 0)
live enemy expires without touching anything. -/
theorem C8_stale_target_witness :
    findEnemy C8ProjFar.target ([C8DeadEnemy] ++ []) = some C8DeadEnemy ∧
    C8DeadEnemy.health ≤ 0 ∧
    (C8ProjFar.update 1 [C8DeadEnemy] []).1.markedForDeletion = true ∧
    (C8ProjFar.update 1 [C8DeadEnemy] []).2.1 = [C8DeadEnemy] := by
  have hfind : findEnemy C8ProjFar.target ([C8DeadEnemy] ++ []) = some C8DeadEnemy := by
    norm_num [C8ProjFar, C8DeadEnemy, findEnemy, mkProjectile]
  have hdead : C8DeadEnemy.health ≤ 0 := by norm_num [C8DeadEnemy]
  have h := (C8_stale_target C8ProjFar 1 [C8DeadEnemy] [] C8DeadEnemy hfind).1 hdead
  exact ⟨hfind, hdead, h.1, h.2.1⟩

/-- Movement never touches an enemy's health. -/
lemma Enemy.update_health (e : Enemy) (dt : ℚ) (path : List Point) :
    (e.update dt path).health = e.health := by
  simp only [Enemy.update]
  repeat' split
  all_goals rfl

/-- Movement never touches an enemy's id. -/
lemma Enemy.update_id (e : Enemy) (dt : ℚ) (path : List Point) :
    (e.update dt path).id = e.id := by
  simp only [Enemy.update]
  repeat' split
  all_goals rfl

/-- Movement never touches an enemy's reward. -/
lemma Enemy.update_reward (e : Enemy) (dt : ℚ) (path : List Point) :
    (e.update dt path).reward = e.reward := by
  simp only [Enemy.update]
  repeat' split
  all_goals rfl

/-- The surviving-enemy list of the enemy loop: every enemy is advanced, and
exactly those neither dead nor escaped remain, in order (independently of the
session accumulator). -/
lemma enemiesPass_fst (dt : ℚ) (path : List Point) :
    ∀ (es : List Enemy) (s : EnemyPassAcc),
      (enemiesPass dt path es s).1 = es.filterMap (fun e =>
        if (e.update dt path).health ≤ 0 then none
        else if (e.update dt path).x > CANVAS_WIDTH then none
        else some (e.update dt path)) := by
  intro es
  induction es with
  | nil => intro s; rfl
  | cons e rest ih =>
    intro s
    simp only [enemiesPass, List.filterMap_cons]
    by_cases h1 : (e.update dt path).health ≤ 0
    · simp [h1, ih s]
    · by_cases h2 : (e.update dt path).x > CANVAS_WIDTH
      · simp [h1, h2, ih s]
      · simp [h1, h2, ih s]

/-- Every survivor of the enemy loop is the advanced copy of a processed
enemy and has positive health. -/
lemma enemiesPass_mem (dt : ℚ) (path : List Point) (es : List Enemy) (s : EnemyPassAcc)
    (e2 : Enemy) (h : e2 ∈ (enemiesPass dt path es s).1) :
    ∃ x ∈ es, e2 = x.update dt path ∧ 0 < e2.health := by
  rw [enemiesPass_fst] at h
  obtain ⟨x, hx, hfx⟩ := List.mem_filterMap.mp h
  by_cases h1 : (x.update dt path).health ≤ 0
  · rw [if_pos h1] at hfx
    cases hfx
  · rw [if_neg h1] at hfx
    by_cases h2 : (x.update dt path).x > CANVAS_WIDTH
    · rw [if_pos h2] at hfx
      cases hfx
    · rw [if_neg h2] at hfx
      injection hfx with hfx
      subst hfx
      exact ⟨x, hx, rfl, lt_of_not_le h1⟩

/-- The enemy loop leaves money and score unchanged when every processed
enemy is alive. -/
lemma enemiesPass_money_healthy (dt : ℚ) (path : List Point) :
    ∀ (es : List Enemy) (s : EnemyPassAcc), (∀ x ∈ es, 0 < x.health) →
      (enemiesPass dt path es s).2.money = s.money ∧
      (enemiesPass dt path es s).2.score = s.score := by
  intro es
  induction es with
  | nil => intro s _; exact ⟨rfl, rfl⟩
  | cons e rest ih =>
    intro s hall
    have he : 0 < e.health := hall e (by simp)
    have hrest := ih s fun x hx => hall x (by simp [hx])
    have hnd : ¬ (e.update dt path).health ≤ 0 := by
      rw [Enemy.update_health]
      exact not_le.mpr he
    simp only [enemiesPass]
    rw [if_neg hnd]
    by_cases h2 : (e.update dt path).x > CANVAS_WIDTH
    · rw [if_pos h2]
      exact hrest
    · rw [if_neg h2]
      exact hrest

/-- When exactly one processed enemy (tracked by its id, ids being distinct)
is dead, the enemy loop adds exactly its reward to money and to score. -/
lemma enemiesPass_single_dead (dt : ℚ) (path : List Point) :
    ∀ (es : List Enemy) (s : EnemyPassAcc) (e : Enemy), e ∈ es → e.health ≤ 0 →
      (∀ x ∈ es, x.id ≠ e.id → 0 < x.health) →
      (es.map Enemy.id).Nodup →
      (enemiesPass dt path es s).2.money = s.money + e.reward ∧
      (enemiesPass dt path es s).2.score = s.score + e.reward := by
  intro es
  induction es with
  | nil =>
    intro s e he
    cases he
  | cons x rest ih =>
    intro s e he hdead hothers hnodup
    have hnodup2 : (rest.map Enemy.id).Nodup := (List.nodup_cons.mp hnodup).2
    have hxid : x.id ∉ rest.map Enemy.id := (List.nodup_cons.mp hnodup).1
    rcases List.mem_cons.mp he with rfl | he2
    · -- the head is the dead enemy; the whole tail is alive
      have hrest : ∀ y ∈ rest, 0 < y.health := by
        intro y hy
        apply hothers y (by simp [hy])
        intro hid
        exact hxid (hid ▸ List.mem_map_of_mem Enemy.id hy)
      have hs := enemiesPass_money_healthy dt path rest s hrest
      have hd : (e.update dt path).health ≤ 0 := by
        rw [Enemy.update_health]
        exact hdead
      simp only [enemiesPass]
      rw [if_pos hd]
      constructor
      · simp only [hs.1, Enemy.update_reward]
      · simp only [hs.2, Enemy.update_reward]
    · -- the dead enemy is in the tail; the head is alive
      have hxh : 0 < x.health := by
        apply hothers x (by simp)
        intro hid
        exact hxid (by
          have : e.id ∈ rest.map Enemy.id := List.mem_map_of_mem Enemy.id he2
          rw [hid]
          exact this)
      have hrest := ih s e he2 hdead
        (fun y hy hne => hothers y (by simp [hy]) hne) hnodup2
      have hnd : ¬ (x.update dt path).health ≤ 0 := by
        rw [Enemy.update_health]
        exact not_le.mpr hxh
      simp only [enemiesPass]
      rw [if_neg hnd]
      by_cases h2 : (x.update dt path).x > CANVAS_WIDTH
      · rw [if_pos h2]
        exact hrest
      · rw [if_neg h2]
        exact hrest

/-- Money never decreases across the enemy loop when all rewards are
non-negative. -/
lemma enemiesPass_money_mono (dt : ℚ) (path : List Point) :
    ∀ (es : List Enemy) (s : EnemyPassAcc), (∀ x ∈ es, 0 ≤ x.reward) →
      s.money ≤ (enemiesPass dt path es s).2.money := by
  intro es
  induction es with
  | nil => intro s _; exact le_rfl
  | cons e rest ih =>
    intro s hall
    have hrest := ih s fun x hx => hall x (by simp [hx])
    have hrew : 0 ≤ (e.update dt path).reward := by
      rw [Enemy.update_reward]
      exact hall e (by simp)
    simp only [enemiesPass]
    by_cases h1 : (e.update dt path).health ≤ 0
    · rw [if_pos h1]
      simp only
      linarith
    · rw [if_neg h1]
      by_cases h2 : (e.update dt path).x > CANVAS_WIDTH
      · rw [if_pos h2]
        exact hrest
      · rw [if_neg h2]
        exact hrest

/-- The enemy loop preserves "lives exhausted implies game over": any escape
that brings `lives` to (or below) zero sets `gameOver` on the spot. -/
lemma enemiesPass_gameOver (dt : ℚ) (path : List Point) :
    ∀ (es : List Enemy) (s : EnemyPassAcc),
      (s.lives ≤ 0 → s.gameOver = true) →
      ((enemiesPass dt path es s).2.lives ≤ 0 →
        (enemiesPass dt path es s).2.gameOver = true) := by
  intro es
  induction es with
  | nil => intro s h; exact h
  | cons e rest ih =>
    intro s h
    have hrest := ih s h
    simp only [enemiesPass]
    by_cases h1 : (e.update dt path).health ≤ 0
    · rw [if_pos h1]
      exact hrest
    · rw [if_neg h1]
      by_cases h2 : (e.update dt path).x > CANVAS_WIDTH
      · rw [if_pos h2]
        intro hl
        simp only at hl ⊢
        split
        · rfl
        · next hc => exact absurd hl hc
      · rw [if_neg h2]
        exact hrest

/-- Two live enemies with the same id are the same enemy when ids are
pairwise distinct. -/
lemma Enemy.eq_of_id_eq {l : List Enemy} (hn : (l.map Enemy.id).Nodup)
    {a b : Enemy} (ha : a ∈ l) (hb : b ∈ l) (hid : a.id = b.id) : a = b :=
  List.inj_on_of_nodup_map hn ha hb hid

/-- Members of a damage write-through: same ids and rewards, health can only
have dropped (for a non-negative damage). -/
lemma mapEnemy_damage_mem (id : ℕ) (dmg : ℚ) (hdmg : 0 ≤ dmg) :
    ∀ (l : List Enemy) (e2 : Enemy),
      e2 ∈ mapEnemy id (fun e => { e with health := e.health - dmg }) l →
      ∃ e ∈ l, e2.id = e.id ∧ e2.reward = e.reward ∧ e2.health ≤ e.health := by
  intro l
  induction l with
  | nil =>
    intro e2 h
    simp [mapEnemy] at h
  | cons e rest ih =>
    intro e2 h
    simp only [mapEnemy] at h
    by_cases hid : e.id = id
    · rw [if_pos hid] at h
      rcases List.mem_cons.mp h with rfl | h2
      · exact ⟨e, by simp, rfl, rfl, show e.health - dmg ≤ e.health by linarith⟩
      · exact ⟨e2, by simp [h2], rfl, rfl, le_rfl⟩
    · rw [if_neg hid] at h
      rcases List.mem_cons.mp h with rfl | h2
      · exact ⟨e2, by simp, rfl, rfl, le_rfl⟩
      · obtain ⟨e3, he3, hprops⟩ := ih e2 h2
        exact ⟨e3, by simp [he3], hprops⟩

/-- One projectile update can only lower live enemies' healths (ids and
rewards untouched). -/
lemma Projectile.update_live (p : Projectile) (dt : ℚ) (live ghosts : List Enemy)
    (hdmg : 0 ≤ p.damage) (e2 : Enemy) (h : e2 ∈ (p.update dt live ghosts).2.1) :
    ∃ e ∈ live, e2.id = e.id ∧ e2.reward = e.reward ∧ e2.health ≤ e.health := by
  simp only [Projectile.update] at h
  cases hfind : findEnemy p.target (live ++ ghosts) with
  | none =>
    simp only [hfind] at h
    exact ⟨e2, h, rfl, rfl, le_rfl⟩
  | some tgt =>
    simp only [hfind] at h
    by_cases hd : tgt.health ≤ 0
    · rw [if_pos hd] at h
      exact ⟨e2, h, rfl, rfl, le_rfl⟩
    · rw [if_neg hd] at h
      by_cases hclose : (tgt.x - p.x) * (tgt.x - p.x) + (tgt.y - p.y) * (tgt.y - p.y) < 25
      · rw [if_pos hclose] at h
        simp only [damageEnemy] at h
        by_cases hin : (findEnemy p.target live).isSome
        · rw [if_pos hin] at h
          exact mapEnemy_damage_mem p.target p.damage hdmg live e2 h
        · rw [if_neg hin] at h
          exact ⟨e2, h, rfl, rfl, le_rfl⟩
      · rw [if_neg hclose] at h
        exact ⟨e2, h, rfl, rfl, le_rfl⟩

/-- The projectile loop can only lower live enemies' healths (ids and rewards
untouched), given non-negative projectile damages. -/
lemma projectilesPass_live (dt : ℚ) :
    ∀ (ps : List Projectile) (live ghosts : List Enemy),
      (∀ p ∈ ps, 0 ≤ p.damage) →
      ∀ e2 ∈ (projectilesPass dt ps live ghosts).2.1,
        ∃ e ∈ live, e2.id = e.id ∧ e2.reward = e.reward ∧ e2.health ≤ e.health := by
  intro ps
  induction ps with
  | nil =>
    intro live ghosts _ e2 h
    exact ⟨e2, h, rfl, rfl, le_rfl⟩
  | cons p rest ih =>
    intro live ghosts hall e2 h
    simp only [projectilesPass] at h
    obtain ⟨e3, he3, hid3, hrew3, hh3⟩ :=
      Projectile.update_live p dt (projectilesPass dt rest live ghosts).2.1
        (projectilesPass dt rest live ghosts).2.2 (hall p (by simp)) e2 h
    obtain ⟨e4, he4, hid4, hrew4, hh4⟩ :=
      ih live ghosts (fun q hq => hall q (by simp [hq])) e3 he3
    exact ⟨e4, he4, hid3.trans hid4, hrew3.trans hrew4, le_trans hh3 (by
      calc e3.health ≤ e4.health := hh4)⟩

/-- An emitted projectile carries exactly its tower's damage. -/
lemma Tower.update_proj_damage (t : Tower) (dt : ℚ) (es : List Enemy) (p : Projectile)
    (h : (t.update dt es).2 = some p) : p.damage = t.damage := by
  simp only [Tower.update] at h
  by_cases hc : t.fireCooldown - dt ≤ 0
  · rw [if_pos hc] at h
    cases hfind : Tower.findTargetAux { t with fireCooldown := t.fireCooldown - dt }
        es none with
    | none =>
      rw [hfind] at h
      simp at h
    | some a =>
      rw [hfind] at h
      simp only at h
      injection h with h2
      subst h2
      rfl
  · rw [if_neg hc] at h
    simp at h

/-- All projectiles pushed by the tower loop have non-negative damage when
all towers do. -/
lemma towersPass_snd_damage (dt : ℚ) (es : List Enemy) :
    ∀ (ts : List Tower), (∀ t ∈ ts, 0 ≤ t.damage) →
      ∀ p ∈ (towersPass dt es ts).2, 0 ≤ p.damage := by
  intro ts
  induction ts with
  | nil =>
    intro _ p hp
    simp [towersPass] at hp
  | cons t rest ih =>
    intro hall p hp
    simp only [towersPass] at hp
    cases hu : (t.update dt es).2 with
    | none =>
      rw [hu] at hp
      exact ih (fun q hq => hall q (by simp [hq])) p hp
    | some q =>
      rw [hu] at hp
      rcases List.mem_cons.mp hp with rfl | hp2
      · rw [Tower.update_proj_damage t dt es p hu]
        exact hall t (by simp)
      · exact ih (fun q2 hq2 => hall q2 (by simp [hq2])) p hp2

/-- `WaveManager.update` either leaves the live enemy list alone or appends
exactly one enemy freshly instantiated (with the next id) from the table. -/
lemma WaveMgr.update_enemies (m : WaveMgr) (dt : ℚ) (es : List Enemy)
    (path : List Point) (nid : ℕ) :
    (m.update dt es path nid).2.1 = es ∨
    ∃ ty stats, enemyTypes ty = some stats ∧
      (m.update dt es path nid).2.1 = es ++ [mkEnemy nid ty stats path] := by
  unfold WaveMgr.update
  split
  · exact Or.inl rfl
  split
  · exact Or.inl rfl
  cases hw : ((m.waves[m.currentWaveIndex]?).getD ⟨[]⟩).enemies with
  | nil =>
    simp only [hw]
    split <;> exact Or.inl rfl
  | cons ty rest =>
    simp only [hw]
    by_cases ht : (1 : ℚ) ≤ m.spawnTimer.getD 0 + dt
    · rw [if_pos ht]
      cases hty : enemyTypes ty with
      | none => exact Or.inl (by simp [hty])
      | some stats => exact Or.inr ⟨ty, stats, hty, by simp [hty]⟩
    · rw [if_neg ht]
      exact Or.inl rfl

/-- Every archetype in the enemy table has positive health and non-negative
reward. -/
lemma enemyTypes_stats (ty : String) (stats : EnemyStats)
    (h : enemyTypes ty = some stats) : 0 < stats.health ∧ 0 ≤ stats.reward := by
  unfold enemyTypes at h
  split_ifs at h <;> (injection h with h2; subst h2; norm_num)

/-- A tick in a terminal state is a no-op. -/
lemma Game.update_terminal (g : Game) (dt : ℚ)
    (h : g.gameOver = true ∨ g.gameWon = true) : g.update dt = g := by
  unfold Game.update
  rcases h with h | h <;> rw [if_pos (by simp [h])]

/-- A tick in a non-terminal state runs the five phases in order. -/
lemma Game.update_eq_phases (g : Game) (dt : ℚ) (hgo : g.gameOver = false)
    (hgw : g.gameWon = false) :
    g.update dt =
      ((((g.wavePhase dt).enemyPhase dt).towerPhase dt).projectilePhase dt).winCheck := by
  unfold Game.update
  rw [if_neg (by simp [hgo, hgw])]

/-- The win check touches only the `gameWon` flag. -/
lemma Game.winCheck_fields (g : Game) :
    (g.winCheck).enemies = g.enemies ∧ (g.winCheck).money = g.money ∧
    (g.winCheck).score = g.score ∧ (g.winCheck).lives = g.lives ∧
    (g.winCheck).gameOver = g.gameOver := by
  unfold Game.winCheck
  split <;> exact ⟨rfl, rfl, rfl, rfl, rfl⟩

/-- **C2 (amended)**: across any tick, live enemies' healths are
non-increasing (matching enemies before/after by id); and the enemies removed
by a tick — with money and score increasing by exactly that enemy's reward —
are exactly those whose health is already `<= 0` when the tick's enemy loop
runs.  An enemy whose health a projectile drives to zero mid-tick is NOT
removed within that same tick (the projectile loop runs after the removal
loop); it is removed, and pays out, in the next tick's enemy loop. -/
theorem C2_amended (g : Game) (dt : ℚ)
    (hids : (g.enemies.map Enemy.id).Nodup)
    (hfresh : ∀ e ∈ g.enemies, e.id < g.nextEnemyId)
    (hpd : ∀ p ∈ g.projectiles, 0 ≤ p.damage)
    (htd : ∀ t ∈ g.towers, 0 ≤ t.damage) :
    (∀ e ∈ g.enemies, ∀ e2 ∈ (g.update dt).enemies, e2.id = e.id →
      e2.health ≤ e.health) ∧
    (g.gameOver = false → g.gameWon = false →
      ∀ e ∈ g.enemies, e.health ≤ 0 →
        (∀ x ∈ g.enemies, x.id ≠ e.id → 0 < x.health) →
        (g.update dt).money = g.money + e.reward ∧
        (g.update dt).score = g.score + e.reward ∧
        ∀ e2 ∈ (g.update dt).enemies, e2.id ≠ e.id) := by
  by_cases hterm : g.gameOver = true ∨ g.gameWon = true
  · have hupd := Game.update_terminal g dt hterm
    constructor
    · intro e he e2 he2 hid
      rw [hupd] at he2
      rw [Enemy.eq_of_id_eq hids he2 he hid]
    · intro hgo hgw
      exfalso
      rcases hterm with h | h
      · rw [hgo] at h
        exact Bool.false_ne_true h
      · rw [hgw] at h
        exact Bool.false_ne_true h
  · push_neg at hterm
    have hgo : g.gameOver = false := by simpa using hterm.1
    have hgw : g.gameWon = false := by simpa using hterm.2
    have hupd := Game.update_eq_phases g dt hgo hgw
    set g1 := g.wavePhase dt with hg1
    set g2 := g1.enemyPhase dt with hg2
    set g3 := g2.towerPhase dt with hg3
    set g4 := g3.projectilePhase dt with hg4
    have hg4en : (g.update dt).enemies =
        (projectilesPass dt g3.projectiles g3.enemies g3.ghosts).2.1 := by
      rw [hupd]
      exact (Game.winCheck_fields g4).1
    have hg3en : g3.enemies = g2.enemies := rfl
    have hg2en : g2.enemies = (enemiesPass dt g1.path g1.enemies
        ⟨g1.ghosts, g1.money, g1.score, g1.lives, g1.gameOver⟩).1 := rfl
    have hg1encases : g1.enemies = g.enemies ∨ ∃ ty stats,
        enemyTypes ty = some stats ∧
        g1.enemies = g.enemies ++ [mkEnemy g.nextEnemyId ty stats g.path] :=
      WaveMgr.update_enemies g.waveMgr dt g.enemies g.path g.nextEnemyId
    have hdall : ∀ p ∈ g3.projectiles, 0 ≤ p.damage := by
      intro p hp
      have hps : g3.projectiles =
          g.projectiles ++ (towersPass dt g2.enemies g.towers).2 := rfl
      rw [hps] at hp
      rcases List.mem_append.mp hp with hp1 | hp2
      · exact hpd p hp1
      · exact towersPass_snd_damage dt g2.enemies g.towers htd p hp2
    have hchain : ∀ e2 ∈ (g.update dt).enemies, ∃ x ∈ g1.enemies,
        e2.id = x.id ∧ e2.reward = x.reward ∧ e2.health ≤ x.health ∧ 0 < x.health := by
      intro e2 he2
      rw [hg4en] at he2
      obtain ⟨eh, heh, hid, hrew, hh⟩ :=
        projectilesPass_live dt g3.projectiles g3.enemies g3.ghosts hdall e2 he2
      rw [hg3en, hg2en] at heh
      obtain ⟨x, hx, hupdx, hpos⟩ := enemiesPass_mem dt g1.path g1.enemies _ eh heh
      have hxh : eh.health = x.health := by
        rw [hupdx, Enemy.update_health]
      refine ⟨x, hx, ?_, ?_, ?_, ?_⟩
      · rw [hid, hupdx, Enemy.update_id]
      · rw [hrew, hupdx, Enemy.update_reward]
      · rw [← hxh]
        exact hh
      · rw [← hxh]
        exact hpos
    constructor
    · intro e he e2 he2 hid
      obtain ⟨x, hx, hid2, _, hh, _⟩ := hchain e2 he2
      rcases hg1encases with hsame | ⟨ty, stats, _, happ⟩
      · rw [hsame] at hx
        have hxe : x = e := Enemy.eq_of_id_eq hids hx he (by rw [← hid2, hid])
        rw [hxe] at hh
        exact hh
      · rw [happ] at hx
        rcases List.mem_append.mp hx with hx1 | hx2
        · have hxe : x = e := Enemy.eq_of_id_eq hids hx1 he (by rw [← hid2, hid])
          rw [hxe] at hh
          exact hh
        · exfalso
          have hxid : x.id = g.nextEnemyId := by
            simp at hx2
            rw [hx2]
            rfl
          have : e.id = g.nextEnemyId := by
            rw [← hid, hid2, hxid]
          exact absurd this (ne_of_lt (hfresh e he))
    · intro _ _ e he hdead hothers
      have hein : e ∈ g1.enemies := by
        rcases hg1encases with hsame | ⟨ty, stats, _, happ⟩
        · rw [hsame]
          exact he
        · rw [happ]
          exact List.mem_append_left _ he
      have hoth1 : ∀ x ∈ g1.enemies, x.id ≠ e.id → 0 < x.health := by
        intro x hx hne
        rcases hg1encases with hsame | ⟨ty, stats, hty, happ⟩
        · rw [hsame] at hx
          exact hothers x hx hne
        · rw [happ] at hx
          rcases List.mem_append.mp hx with hx1 | hx2
          · exact hothers x hx1 hne
          · have hxe : x = mkEnemy g.nextEnemyId ty stats g.path := by
              simpa using hx2
            rw [hxe]
            exact (enemyTypes_stats ty stats hty).1
      have hnodup1 : (g1.enemies.map Enemy.id).Nodup := by
        rcases hg1encases with hsame | ⟨ty, stats, _, happ⟩
        · rw [hsame]
          exact hids
        · rw [happ, List.map_append]
          rw [List.nodup_append]
          refine ⟨hids, by simp, ?_⟩
          intro a ha hb
          simp only [List.map_cons, List.map_nil, List.mem_singleton] at hb
          obtain ⟨x, hx, hxa⟩ := List.mem_map.mp ha
          have : a = g.nextEnemyId := hb
          rw [this] at hxa
          exact absurd hxa (ne_of_lt (hfresh x hx))
      have hmoney := enemiesPass_single_dead dt g1.path g1.enemies
        ⟨g1.ghosts, g1.money, g1.score, g1.lives, g1.gameOver⟩ e hein hdead hoth1 hnodup1
      have hupm : (g.update dt).money = g2.money ∧ (g.update dt).score = g2.score := by
        rw [hupd]
        exact ⟨(Game.winCheck_fields g4).2.1, (Game.winCheck_fields g4).2.2.1⟩
      refine ⟨?_, ?_, ?_⟩
      · rw [hupm.1]
        exact hmoney.1
      · rw [hupm.2]
        exact hmoney.2
      · intro e2 he2 hideq
        obtain ⟨x, hx, hid2, _, _, hxpos⟩ := hchain e2 he2
        rcases hg1encases with hsame | ⟨ty, stats, _, happ⟩
        · rw [hsame] at hx
          have hxe : x = e := Enemy.eq_of_id_eq hids hx he (by rw [← hid2, hideq])
          rw [hxe] at hxpos
          exact absurd hdead (not_le.mpr hxpos)
        · rw [happ] at hx
          rcases List.mem_append.mp hx with hx1 | hx2
          · have hxe : x = e := Enemy.eq_of_id_eq hids hx1 he (by rw [← hid2, hideq])
            rw [hxe] at hxpos
            exact absurd hdead (not_le.mpr hxpos)
          · have hxid : x.id = g.nextEnemyId := by
              simp at hx2
              rw [hx2]
              rfl
            have : e.id = g.nextEnemyId := by
              rw [← hideq, hid2, hxid]
            exact absurd this (ne_of_lt (hfresh e he))

def C2CexGame : Game :=
  { initialGame with
      waveMgr := { initialGame.waveMgr with waveCooldown := 5 },
      enemies := [⟨0, "basic", 10, 50, 1, 10, "red", 20, 24, 700, 480⟩],
      projectiles := [mkProjectile 704 480 0 10 "blue"],
      nextEnemyId := 1 }

/-- **C2 counterexample**: a basic enemy with 10 health left, and a 10-damage
projectile that reaches it this tick.  During the tick the projectile drives
the enemy's health to 0, yet at the end of the very same tick the enemy is
still in the live collection (with health 0) and neither money nor score has
increased — refuting "removed from the live collection within that same tick
and money and score each increase by exactly that enemy's reward". -/
theorem C2_counterexample :
    (C2CexGame.update (1/10)).enemies.map Enemy.health = [0] ∧
    (C2CexGame.update (1/10)).money = C2CexGame.money ∧
    (C2CexGame.update (1/10)).score = C2CexGame.score := by
  refine ⟨?_, ?_, ?_⟩ <;>
    norm_num [C2CexGame, initialGame, Game.update, Game.wavePhase, Game.enemyPhase,
      Game.towerPhase, Game.projectilePhase, Game.winCheck, WaveMgr.update, enemiesPass,
      Enemy.update, towersPass, projectilesPass, Projectile.update, findEnemy, mapEnemy,
      damageEnemy, mkProjectile, createPath, createWaves, CANVAS_WIDTH, GRID_SIZE]

def C2DeadGame : Game :=
  { initialGame with
      waveMgr := { initialGame.waveMgr with waveCooldown := 5 },
      enemies := [⟨0, "basic", 0, 50, 1, 10, "red", 20, 24, 700, 480⟩],
      nextEnemyId := 1 }

/-- Witness for `C2_amended`: an enemy entering the tick with health 0 is
removed by that tick's enemy loop and pays its reward of 10 to money and
score. -/
theorem C2_amended_witness :
    (C2DeadGame.enemies.map Enemy.id).Nodup ∧
    (C2DeadGame.update 1).money = C2DeadGame.money + 10 ∧
    (C2DeadGame.update 1).score = C2DeadGame.score + 10 ∧
    ∀ e2 ∈ (C2DeadGame.update 1).enemies, e2.id ≠ 0 := by
  have hids : (C2DeadGame.enemies.map Enemy.id).Nodup := by
    simp [C2DeadGame, initialGame]
  have h := (C2_amended C2DeadGame 1 hids
      (by
        intro e he
        simp only [C2DeadGame, initialGame, List.mem_singleton] at he
        rw [he]
        norm_num [C2DeadGame])
      (by intro p hp; simp [C2DeadGame, initialGame] at hp)
      (by intro t ht; simp [C2DeadGame, initialGame] at ht)).2
    rfl rfl ⟨0, "basic", 0, 50, 1, 10, "red", 20, 24, 700, 480⟩
    (by simp [C2DeadGame, initialGame])
    le_rfl
    (by
      intro x hx hne
      simp only [C2DeadGame, initialGame, List.mem_singleton] at hx
      rw [hx] at hne
      exact absurd rfl hne)
  exact ⟨hids, h.1, h.2.1, h.2.2⟩

/-- **C3 (amended)**: starting a tick with positive lives, if the tick drives
`lives` to zero or below (several enemies can escape in one tick, so it can
go strictly below zero), then `gameOver` is set by that same tick; and once
`gameOver` holds every subsequent tick is a no-op. -/
theorem C3_amended (g : Game) (dt : ℚ) (hl : 0 < g.lives) :
    ((g.update dt).lives ≤ 0 → (g.update dt).gameOver = true) ∧
    ((g.update dt).gameOver = true → ∀ dt2, (g.update dt).update dt2 = g.update dt) := by
  constructor
  · intro hlow
    by_cases hterm : g.gameOver = true ∨ g.gameWon = true
    · have hupd := Game.update_terminal g dt hterm
      rw [hupd] at hlow
      exact absurd hlow (not_le.mpr hl)
    · push_neg at hterm
      have hgo : g.gameOver = false := by simpa using hterm.1
      have hgw : g.gameWon = false := by simpa using hterm.2
      have hupd := Game.update_eq_phases g dt hgo hgw
      set g1 := g.wavePhase dt with hg1
      set g2 := g1.enemyPhase dt with hg2
      set g3 := g2.towerPhase dt with hg3
      set g4 := g3.projectilePhase dt with hg4
      have hl4 : (g.update dt).lives = g2.lives := by
        rw [hupd]
        exact (Game.winCheck_fields g4).2.2.2.1
      have hgo4 : (g.update dt).gameOver = g2.gameOver := by
        rw [hupd]
        exact (Game.winCheck_fields g4).2.2.2.2
      have hg2l : g2.lives = (enemiesPass dt g1.path g1.enemies
          ⟨g1.ghosts, g1.money, g1.score, g1.lives, g1.gameOver⟩).2.lives := rfl
      have hg2go : g2.gameOver = (enemiesPass dt g1.path g1.enemies
          ⟨g1.ghosts, g1.money, g1.score, g1.lives, g1.gameOver⟩).2.gameOver := rfl
      rw [hgo4, hg2go]
      apply enemiesPass_gameOver dt g1.path g1.enemies
        ⟨g1.ghosts, g1.money, g1.score, g1.lives, g1.gameOver⟩
      · intro hcon
        exact absurd hcon (not_le.mpr hl)
      · rw [← hg2l, ← hl4]
        exact hlow
  · intro hgo4 dt2
    exact Game.update_terminal _ dt2 (Or.inl hgo4)

def C3Game : Game :=
  { initialGame with
      lives := 1,
      waveMgr := { initialGame.waveMgr with waveCooldown := 5 },
      enemies := [⟨0, "basic", 50, 50, 1, 10, "red", 20, 24, 790, 480⟩,
                  ⟨1, "basic", 50, 50, 1, 10, "red", 20, 24, 750, 480⟩],
      nextEnemyId := 2 }

/-- **C3 counterexample**: one life left and two enemies near the exit; in a
single 2-second tick both cross the boundary, the loop decrements `lives`
once per escape without stopping, and `lives` ends at -1 < 0 — refuting
"`lives >= 0` holds in every reachable state" (`gameOver` is still set the
moment lives reached 0). -/
theorem C3_counterexample :
    0 < C3Game.lives ∧ (C3Game.update 2).lives = -1 ∧
    (C3Game.update 2).gameOver = true := by
  refine ⟨by norm_num [C3Game, initialGame], ?_, ?_⟩ <;>
    norm_num [C3Game, initialGame, Game.update, Game.wavePhase, Game.enemyPhase,
      Game.towerPhase, Game.projectilePhase, Game.winCheck, WaveMgr.update, enemiesPass,
      Enemy.update, towersPass, projectilesPass, createPath, createWaves,
      CANVAS_WIDTH, GRID_SIZE]

/-- Witness for `C3_amended`, at the same two-escape state as the
counterexample: the tick that exhausts the lives sets `gameOver`, and the
session is frozen afterwards. -/
theorem C3_amended_witness :
    (0 : ℤ) < C3Game.lives ∧
    ((C3Game.update 2).lives ≤ 0 → (C3Game.update 2).gameOver = true) ∧
    ((C3Game.update 2).gameOver = true →
      ∀ dt2, (C3Game.update 2).update dt2 = C3Game.update 2) := by
  have hl : (0 : ℤ) < C3Game.lives := by norm_num [C3Game, initialGame]
  have h := C3_amended C3Game 2 hl
  exact ⟨hl, h.1, h.2⟩

/-- A write-through on an enemy list by a reward-preserving mutation keeps
every member's reward equal to some original member's. -/
lemma mapEnemy_reward (id : ℕ) (f : Enemy → Enemy) (hf : ∀ e, (f e).reward = e.reward) :
    ∀ (l : List Enemy) (e2 : Enemy), e2 ∈ mapEnemy id f l →
      ∃ e ∈ l, e2.reward = e.reward := by
  intro l
  induction l with
  | nil =>
    intro e2 h
    simp [mapEnemy] at h
  | cons e rest ih =>
    intro e2 h
    simp only [mapEnemy] at h
    by_cases hid : e.id = id
    · rw [if_pos hid] at h
      rcases List.mem_cons.mp h with rfl | h2
      · exact ⟨e, by simp, hf e⟩
      · exact ⟨e2, by simp [h2], rfl⟩
    · rw [if_neg hid] at h
      rcases List.mem_cons.mp h with rfl | h2
      · exact ⟨e2, by simp, rfl⟩
      · obtain ⟨e3, he3, hr⟩ := ih e2 h2
        exact ⟨e3, by simp [he3], hr⟩

/-- One projectile update keeps every live enemy's reward equal to some
original live enemy's (damage only rewrites health). -/
lemma Projectile.update_live_reward (p : Projectile) (dt : ℚ) (live ghosts : List Enemy)
    (e2 : Enemy) (h : e2 ∈ (p.update dt live ghosts).2.1) :
    ∃ e ∈ live, e2.reward = e.reward := by
  simp only [Projectile.update] at h
  cases hfind : findEnemy p.target (live ++ ghosts) with
  | none =>
    simp only [hfind] at h
    exact ⟨e2, h, rfl⟩
  | some tgt =>
    simp only [hfind] at h
    by_cases hd : tgt.health ≤ 0
    · rw [if_pos hd] at h
      exact ⟨e2, h, rfl⟩
    · rw [if_neg hd] at h
      by_cases hclose : (tgt.x - p.x) * (tgt.x - p.x) + (tgt.y - p.y) * (tgt.y - p.y) < 25
      · rw [if_pos hclose] at h
        simp only [damageEnemy] at h
        by_cases hin : (findEnemy p.target live).isSome
        · rw [if_pos hin] at h
          exact mapEnemy_reward p.target
            (fun e => { e with health := e.health - p.damage }) (fun e => rfl) live e2 h
        · rw [if_neg hin] at h
          exact ⟨e2, h, rfl⟩
      · rw [if_neg hclose] at h
        exact ⟨e2, h, rfl⟩

/-- The projectile loop keeps every live enemy's reward equal to some
original live enemy's. -/
lemma projectilesPass_live_reward (dt : ℚ) :
    ∀ (ps : List Projectile) (live ghosts : List Enemy) (e2 : Enemy),
      e2 ∈ (projectilesPass dt ps live ghosts).2.1 →
      ∃ e ∈ live, e2.reward = e.reward := by
  intro ps
  induction ps with
  | nil =>
    intro live ghosts e2 h
    exact ⟨e2, h, rfl⟩
  | cons p rest ih =>
    intro live ghosts e2 h
    simp only [projectilesPass] at h
    obtain ⟨e3, he3, hr3⟩ := Projectile.update_live_reward p dt
      (projectilesPass dt rest live ghosts).2.1
      (projectilesPass dt rest live ghosts).2.2 e2 h
    obtain ⟨e4, he4, hr4⟩ := ih live ghosts e3 he3
    exact ⟨e4, he4, hr3.trans hr4⟩

/-- The money/reward invariant behind C10: money is non-negative and every
live enemy's reward is non-negative. -/
def GameInv (g : Game) : Prop := 0 ≤ g.money ∧ ∀ e ∈ g.enemies, 0 ≤ e.reward

/-- A tick preserves the money/reward invariant: money only grows (by dead
enemies' non-negative rewards), and new enemies come from the stat table. -/
lemma Game.update_inv (g : Game) (dt : ℚ) (h : GameInv g) : GameInv (g.update dt) := by
  by_cases hterm : g.gameOver = true ∨ g.gameWon = true
  · rw [Game.update_terminal g dt hterm]
    exact h
  · push_neg at hterm
    have hgo : g.gameOver = false := by simpa using hterm.1
    have hgw : g.gameWon = false := by simpa using hterm.2
    have hupd := Game.update_eq_phases g dt hgo hgw
    set g1 := g.wavePhase dt with hg1
    set g2 := g1.enemyPhase dt with hg2
    set g3 := g2.towerPhase dt with hg3
    set g4 := g3.projectilePhase dt with hg4
    have hrew1 : ∀ x ∈ g1.enemies, 0 ≤ x.reward := by
      intro x hx
      rcases WaveMgr.update_enemies g.waveMgr dt g.enemies g.path g.nextEnemyId with
        hsame | ⟨ty, stats, hty, happ⟩
      · rw [show g1.enemies = (g.waveMgr.update dt g.enemies g.path g.nextEnemyId).2.1
          from rfl, hsame] at hx
        exact h.2 x hx
      · rw [show g1.enemies = (g.waveMgr.update dt g.enemies g.path g.nextEnemyId).2.1
          from rfl, happ] at hx
        rcases List.mem_append.mp hx with hx1 | hx2
        · exact h.2 x hx1
        · have hxe : x = mkEnemy g.nextEnemyId ty stats g.path := by simpa using hx2
          rw [hxe]
          exact (enemyTypes_stats ty stats hty).2
    constructor
    · have hupm : (g.update dt).money = g2.money := by
        rw [hupd]
        exact (Game.winCheck_fields g4).2.1
      rw [hupm]
      have hmono := enemiesPass_money_mono dt g1.path g1.enemies
        ⟨g1.ghosts, g1.money, g1.score, g1.lives, g1.gameOver⟩ hrew1
      exact le_trans h.1 hmono
    · intro e2 he2
      have hen : (g.update dt).enemies =
          (projectilesPass dt g3.projectiles g3.enemies g3.ghosts).2.1 := by
        rw [hupd]
        exact (Game.winCheck_fields g4).1
      rw [hen] at he2
      obtain ⟨e3, he3, hr3⟩ :=
        projectilesPass_live_reward dt g3.projectiles g3.enemies g3.ghosts e2 he2
      have hg3en : g3.enemies = (enemiesPass dt g1.path g1.enemies
          ⟨g1.ghosts, g1.money, g1.score, g1.lives, g1.gameOver⟩).1 := rfl
      rw [hg3en] at he3
      obtain ⟨x, hx, hupdx, _⟩ := enemiesPass_mem dt g1.path g1.enemies _ e3 he3
      rw [hr3, hupdx, Enemy.update_reward]
      exact hrew1 x hx

/-- A click preserves the money/reward invariant: both spend sites check the
cost against money first, and no click touches the enemy list. -/
lemma Game.handleClick_inv (g : Game) (x y : ℚ) (h : GameInv g) :
    GameInv (g.handleClick x y).1 := by
  unfold Game.handleClick Game.upgradeTower
  split
  · exact h
  split
  · cases hc : cellAt g.grid ⌊y / GRID_SIZE⌋ ⌊x / GRID_SIZE⌋ with
    | none =>
      simp only [hc]
      exact h
    | some c =>
      simp only [hc]
      split
      · cases ht : towerTypes g.selectedTowerType with
        | none =>
          simp only [ht]
          exact h
        | some tt =>
          simp only [ht]
          split
          · next hcost => exact ⟨sub_nonneg.mpr hcost, h.2⟩
          · exact h
      · exact h
  · cases hf : findClickedTower x y g.towers 0 with
    | none =>
      simp only [hf]
      exact h
    | some i =>
      simp only [hf]
      cases hg : g.towers.get? i with
      | none =>
        simp only [hg]
        exact h
      | some t =>
        simp only [hg]
        split
        · next hcost => exact ⟨sub_nonneg.mpr hcost, h.2⟩
        · exact h

/-- Selecting a tower type preserves the money/reward invariant. -/
lemma Game.startPlacingTower_inv (g : Game) (ty : String) (h : GameInv g) :
    GameInv (g.startPlacingTower ty) := by
  unfold Game.startPlacingTower
  split <;> exact h

/-- **C10**: from the constructed initial state, money stays non-negative
across every sequence of host commands: both spend sites (tower placement and
tower upgrade) first check that money covers the cost, and money otherwise
only grows by dead enemies' non-negative rewards. -/
theorem C10_money_nonneg : ∀ steps : List Step, 0 ≤ (initialGame.run steps).money := by
  have hrun : ∀ (steps : List Step) (g : Game), GameInv g → GameInv (g.run steps) := by
    intro steps
    induction steps with
    | nil => intro g h; exact h
    | cons s rest ih =>
      intro g h
      cases s with
      | tick dt => exact ih _ (Game.update_inv g dt h)
      | click x y => exact ih _ (Game.handleClick_inv g x y h)
      | selectTower ty => exact ih _ (Game.startPlacingTower_inv g ty h)
  intro steps
  refine (hrun steps initialGame ⟨by norm_num [initialGame], ?_⟩).1
  intro e he
  simp [initialGame] at he
